import Mathlib

/-!
Verification of ossimOpjNitfReader: block-offset scan and block addressing.

A shallow embedding of `src/openjpeg/src/ossimOpjNitfReader.cpp`.

* `IStream` models the `std::istream` behind `theFileStr`: the bytes of the
  file, the get pointer and the three state bits, with the operations the
  reader calls (`get`, `seekg`, `tellg`, `clear`, `fail`).
* `Reader` holds the members of the reader object that the functions touch.
* `scanForJpegBlockOffsets` and `uncompressJpegBlock` follow the source line
  by line; the `while` loop of the scan is `scanLoop`.
* `initializeCompressedBuf` and `dumpTiles` follow the source in the same way;
  the record parsers that `dumpTiles` calls are parameters (`RecordParsers`).
-/

namespace OpjNitf

/-- One byte of the file (the value of `static_cast<ossim_uint8>(c)`). -/
abbrev Byte := Fin 256

/-! ## The input stream -/

/-- State of the `std::istream` the reader holds in `theFileStr`.
`bytes` is the whole file, `pos` the get pointer counted from the start of the
file, and `eofbit`, `failbit`, `badbit` are the bits of `rdstate()`.
`seekPastEnd` tells whether the stream buffer accepts a seek beyond the last
byte (a file buffer does, a string buffer does not); a seek to a position
inside the file, or to its end, always succeeds. -/
structure IStream where
  bytes : List Byte
  pos : Nat
  eofbit : Bool
  failbit : Bool
  badbit : Bool
  seekPastEnd : Bool
deriving DecidableEq

namespace IStream

/-- Value of `std::ios::good()`: no state bit is set. -/
def good (s : IStream) : Bool := !s.eofbit && !s.failbit && !s.badbit

/-- Value of `std::ios::fail()`: `failbit` or `badbit` is set. -/
def fail (s : IStream) : Bool := s.failbit || s.badbit

/-- Effect of `std::ios::clear()`: all state bits are reset. -/
def clear (s : IStream) : IStream :=
  { s with eofbit := false, failbit := false, badbit := false }

/-- Effect of `std::istream::get(char& c)`, as the triple (stream afterwards,
value of `c` afterwards, value of the call tested as a condition).
The sentry fails when the stream is not `good()`; then `failbit` is set and `c`
keeps its value. With no byte left, `eofbit` and `failbit` are set and `c`
keeps its value. Otherwise the byte under the get pointer is stored in `c`
and the pointer advances by one. -/
def get (s : IStream) (c : Byte) : IStream × Byte × Bool :=
  if s.good then
    match s.bytes[s.pos]? with
    | some b => ({ s with pos := s.pos + 1 }, b, true)
    | none => ({ s with eofbit := true, failbit := true }, c, false)
  else
    ({ s with failbit := true }, c, false)

/-- Effect of `std::istream::seekg(off, ios::beg)` for `off >= 0`.
The call first clears `eofbit`; its sentry then fails when `fail()` holds, in
which case `failbit` is set and the get pointer does not move. Otherwise the
pointer is set to `off` when the buffer accepts that position, and `failbit`
is set when it does not. -/
def seekg (s : IStream) (off : Nat) : IStream :=
  let s1 : IStream := { s with eofbit := false }
  if s1.fail then { s1 with failbit := true }
  else if off ≤ s1.bytes.length || s1.seekPastEnd then { s1 with pos := off }
  else { s1 with failbit := true }

/-- Value of `std::istream::tellg()`: `-1` when `fail()` holds, else the
position of the get pointer. -/
def tellg (s : IStream) : Int :=
  if s.fail then -1 else (s.pos : Int)

end IStream

/-! ## The reader object -/

/-- The `ReadModeType` values of the base class the reader tests or assigns;
every enumerator other than the two named in this file is
`READ_MODE_OTHER`. -/
inductive ReadMode where
  | READ_MODE_UNKNOWN
  | READ_MODE_OTHER
  | READ_JPEG_BLOCK
deriving DecidableEq

/-- The values the reader asks of the current `ossimNitfImageHeader`:
`getDataLocation()`, `getNumberOfBlocksPerRow()` and
`getNumberOfBlocksPerCol()` (the last two are `ossim_uint32`). -/
structure ImageHeader where
  dataLocation : Nat
  blocksPerRow : Nat
  blocksPerCol : Nat
deriving DecidableEq

/-- An `ossimIpt`: two `ossim_int32` coordinates. -/
structure Ipt where
  x : Int
  y : Int
deriving DecidableEq

/-- An `ossimIrect` given by its upper-left and lower-right corners. -/
structure Irect where
  ul : Ipt
  lr : Ipt
deriving DecidableEq

/-- The members of `ossimOpjNitfReader` (inherited from
`ossimNitfTileSource`) that the functions of this file read or write.
`hdr` is the result of `getCurrentImageHeader()` and `theFileStr` the stream
pointer, both `none` when null. -/
structure Reader where
  hdr : Option ImageHeader
  theReadMode : ReadMode
  theFileStr : Option IStream
  theNitfBlockOffset : List Nat
  theNitfBlockSize : List Nat
  theCacheSize : Ipt
  theCompressedBuf : List Byte
deriving DecidableEq

/-- Conversion to `ossim_uint32`. -/
def toU32 (n : Nat) : Nat := n % 2 ^ 32

/-! ## scanForJpegBlockOffsets -/

/-- The local variables of `scanForJpegBlockOffsets` that live across the
`while` loop, with the stream and the two tables it fills. -/
structure ScanState where
  str : IStream
  c : Byte
  blockSize : Nat
  offsets : List Nat
  sizes : List Nat
deriving DecidableEq

/-- The loop `while ( theFileStr->get(c) ) { ... }` of
`scanForJpegBlockOffsets` (source lines 160-182). One unit of fuel is one
evaluation of the loop condition; the loop ends when `get` fails. The value
`pos-2` pushed on `theNitfBlockOffset` is a file position and is kept as a
natural number. -/
def scanLoop : Nat → ScanState → ScanState
  | 0, st => st
  | fuel + 1, st =>
    match st.str.get st.c with
    | (s1, c1, false) => { st with str := s1, c := c1 }
    | (s1, c1, true) =>
      let bs1 := toU32 (st.blockSize + 1)
      if c1 = 0xff then
        match s1.get c1 with
        | (s2, c2, true) =>
          let bs2 := toU32 (bs1 + 1)
          if c2 = 0x90 then
            let pos := s2.tellg
            scanLoop fuel
              { str := s2, c := c2, blockSize := bs2,
                offsets := st.offsets ++ [(pos - 2).toNat], sizes := st.sizes }
          else if c2 = 0x93 then
            scanLoop fuel
              { str := s2, c := c2, blockSize := 0,
                offsets := st.offsets, sizes := st.sizes ++ [bs2] }
          else
            scanLoop fuel
              { str := s2, c := c2, blockSize := bs2,
                offsets := st.offsets, sizes := st.sizes }
        | (s2, c2, false) =>
          scanLoop fuel
            { str := s2, c := c2, blockSize := bs1,
              offsets := st.offsets, sizes := st.sizes }
      else
        scanLoop fuel
          { str := s1, c := c1, blockSize := bs1,
            offsets := st.offsets, sizes := st.sizes }

/-- Fuel that lets `scanLoop` run until `get` fails on stream `s`: every
evaluation of the loop condition but the last consumes a byte. -/
def scanFuel (s : IStream) : Nat := s.bytes.length + 1

/-- The function `ossimOpjNitfReader::scanForJpegBlockOffsets()`.
`c0` is the indeterminate initial value of the local `char c`. The result is
the returned `bool` and the reader afterwards. -/
def scanForJpegBlockOffsets (r : Reader) (c0 : Byte) : Bool × Reader :=
  match r.hdr, r.theFileStr with
  | some hdr, some str =>
    if r.theReadMode ≠ ReadMode.READ_JPEG_BLOCK then (false, r)
    else
      -- theNitfBlockOffset.clear(); theNitfBlockSize.clear();
      let s0 := str.seekg hdr.dataLocation
      if s0.fail then
        (false, { r with theFileStr := some s0, theNitfBlockOffset := [],
                         theNitfBlockSize := [] })
      else
        match s0.get c0 with
        | (s1, c1, _) =>
          if c1 ≠ 0xff then
            (false, { r with theFileStr := some s1, theNitfBlockOffset := [],
                             theNitfBlockSize := [] })
          else
            match s1.get c1 with
            | (s2, c2, _) =>
              if c2 ≠ 0x4f then
                (false, { r with theFileStr := some s2, theNitfBlockOffset := [],
                                 theNitfBlockSize := [] })
              else
                let st := scanLoop (scanFuel s2)
                  { str := s2, c := c2, blockSize := 2, offsets := [], sizes := [] }
                let s3 := (st.str.seekg 0).clear
                let r1 : Reader :=
                  { r with theFileStr := some s3, theNitfBlockOffset := st.offsets,
                           theNitfBlockSize := st.sizes }
                let total_blocks := toU32 (hdr.blocksPerRow * hdr.blocksPerCol)
                if st.offsets.length ≠ total_blocks then (false, r1)
                else if st.sizes.length ≠ total_blocks then (false, r1)
                else (true, r1)
  | _, _ => (false, r)

/-! ## uncompressJpegBlock -/

/-- Conversion of an `ossim_int32` to `ossim_uint32` (the usual arithmetic
conversion applied to `theCacheSize.x` next to an `ossim_uint32` operand). -/
def i32ToU32 (i : Int) : Nat := (i % 2 ^ 32).toNat

/-- Conversion of an `ossim_uint32` to the `ossim_int32` coordinate of an
`ossimIpt`. -/
def u32ToI32 (n : Nat) : Int :=
  if n % 2 ^ 32 < 2 ^ 31 then ((n % 2 ^ 32 : Nat) : Int)
  else ((n % 2 ^ 32 : Nat) : Int) - 2 ^ 32

/-- What `uncompressJpegBlock` does that a caller or the decoder can observe:
the returned `bool`, the target of its `theFileStr->seekg(offset, ios::beg)`,
and the rectangle and offset it hands to `ossim::opj_decode`. The last three
are `none` when the function returns before reaching them. -/
structure BlockAccess where
  ret : Bool
  seekTarget : Option Nat
  decodeRect : Option Irect
  decodeOffset : Option Nat
deriving DecidableEq

/-- The function `ossimOpjNitfReader::uncompressJpegBlock(x, y)` with
`ossim_uint32` arguments. The result is `none` where the source has no
defined behaviour: a division by a zero block dimension, or a null stream
pointer that is dereferenced. The decoder's own result is discarded by the
source, so it plays no part in the returned `bool`; the call of `dumpTiles`
between the seek and the decode only writes a dump and is not recorded
here. -/
def uncompressJpegBlock (r : Reader) (x y : Nat) : Option BlockAccess :=
  match r.hdr with
  | none => some { ret := false, seekTarget := none, decodeRect := none,
                   decodeOffset := none }
  | some hdr =>
    let w := i32ToU32 r.theCacheSize.x
    let h := i32ToU32 r.theCacheSize.y
    if w = 0 ∨ h = 0 then none
    else
      let blockX := toU32 x / w
      let blockY := toU32 y / h
      let rect : Irect :=
        { ul := { x := u32ToI32 (toU32 (blockX * w)),
                  y := u32ToI32 (toU32 (blockY * h)) },
          lr := { x := u32ToI32 (toU32 (toU32 (toU32 (blockX + 1) * w) + (2 ^ 32 - 1))),
                  y := u32ToI32 (toU32 (toU32 (toU32 (blockY + 1) * h) + (2 ^ 32 - 1))) } }
      let offset := hdr.dataLocation
      match r.theFileStr with
      | none => none
      | some _ =>
        some { ret := true, seekTarget := some offset, decodeRect := some rect,
               decodeOffset := some offset }

/-! ## A list view of the scan loop -/

/-- The tables the loop builds, computed on the bytes still ahead of the get
pointer: `pos` is the position of the first of them, `bs` the value of
`blockSize`. Returns the final `blockSize`, offsets and sizes. -/
def scanBytes : List Byte → Nat → Nat → List Nat → List Nat → Nat × List Nat × List Nat
  | [], _, bs, offs, szs => (bs, offs, szs)
  | [_], _, bs, offs, szs => (toU32 (bs + 1), offs, szs)
  | b :: c :: rest, pos, bs, offs, szs =>
    if b = 0xff then
      if c = 0x90 then
        scanBytes rest (pos + 2) (toU32 (toU32 (bs + 1) + 1)) (offs ++ [pos]) szs
      else if c = 0x93 then
        scanBytes rest (pos + 2) 0 offs (szs ++ [toU32 (toU32 (bs + 1) + 1)])
      else
        scanBytes rest (pos + 2) (toU32 (toU32 (bs + 1) + 1)) offs szs
    else
      scanBytes (c :: rest) (pos + 1) (toU32 (bs + 1)) offs szs

/-- The stream as the scan leaves it after the loop has run to the end of the
file. The failed `get` that ends the loop has set `eofbit` and `failbit`, so
the `seekg(0, ios::beg)` of line 184 finds `fail()` true and does not move the
get pointer, which stays at the end of the file; the `clear()` of line 185
then resets all state bits. -/
def atEnd (s : IStream) : IStream :=
  { bytes := s.bytes, pos := s.bytes.length, eofbit := false, failbit := false,
    badbit := false, seekPastEnd := s.seekPastEnd }

/-- The result of `scanBytes` for a scan that starts right behind the two
start-of-codestream bytes at position `d`, with `blockSize = 2`. -/
def scanTables (bytes : List Byte) (d : Nat) : Nat × List Nat × List Nat :=
  scanBytes (bytes.drop (d + 2)) (d + 2) 2 [] []

/-! ## Shape of a well-formed codestream (used to state the claims) -/

/-- Whether two adjacent bytes of the list are `FF 90` or `FF 93`. -/
def hasMarkerPair : List Byte → Bool
  | b :: c :: rest =>
    (b == 0xff && (c == 0x90 || c == 0x93)) || hasMarkerPair (c :: rest)
  | _ => false

/-- A run of header or data bytes between markers: it holds neither `FF 90`
nor `FF 93` and its last byte is not `FF`. -/
def quietSeg (seg : List Byte) : Bool :=
  !hasMarkerPair seg && seg.getLast? != some 0xff

/-- A tile-part: the header bytes between its `FF 90` and its `FF 93`, and the
data bytes behind the `FF 93`. -/
structure TilePart where
  hdr : List Byte
  data : List Byte
deriving DecidableEq

/-- The bytes of a tile-part: `FF 90`, header bytes, `FF 93`, data bytes. -/
def TilePart.bytes (t : TilePart) : List Byte :=
  [0xff, 0x90] ++ t.hdr ++ [0xff, 0x93] ++ t.data

/-- The bytes of consecutive tile-parts. -/
def tilesBytes : List TilePart → List Byte
  | [] => []
  | t :: ts => t.bytes ++ tilesBytes ts

/-- A codestream: `FF 4F`, the main header bytes, then the tile-parts. -/
def codestream (mainHdr : List Byte) (tiles : List TilePart) : List Byte :=
  [0xff, 0x4f] ++ mainHdr ++ tilesBytes tiles

/-- Positions of the `FF 90` markers of consecutive tile-parts, the first of
which starts at `start`. -/
def tileOffsets (start : Nat) : List TilePart → List Nat
  | [] => []
  | t :: ts => start :: tileOffsets (start + t.bytes.length) ts

/-- Byte distance from the `FF 90` of a tile-part to its `FF 93`. -/
def TilePart.startToTerminator (t : TilePart) : Nat := t.hdr.length + 2

/-- For consecutive tile-parts, the number of bytes from the end of the
previous terminator `FF 93` through the end of the tile-part's own `FF 93`,
as an `ossim_uint32`; `carry` is the number of bytes that precede the first
`FF 90` and belong to no earlier count. -/
def tileSizes (carry : Nat) : List TilePart → List Nat
  | [] => []
  | t :: ts => toU32 (carry + t.hdr.length + 4) :: tileSizes t.data.length ts

/-! ## Sample inputs -/

/-- A reader in read mode `READ_JPEG_BLOCK` over a good stream on `bytes`, with
the header values `d`, `rows`, `cols`, tables that hold stale entries and the
get pointer at `p`. -/
def sampleReader (bytes : List Byte) (p d rows cols : Nat) : Reader :=
  { hdr := some { dataLocation := d, blocksPerRow := rows, blocksPerCol := cols },
    theReadMode := ReadMode.READ_JPEG_BLOCK,
    theFileStr := some { bytes := bytes, pos := p, eofbit := false, failbit := false,
                         badbit := false, seekPastEnd := true },
    theNitfBlockOffset := [7], theNitfBlockSize := [8],
    theCacheSize := { x := 4, y := 4 }, theCompressedBuf := [] }

/-! ## initializeCompressedBuf -/

/-- The loop `while (i != theNitfBlockSize.end())` of `initializeCompressedBuf`
(source lines 102-110) over the entries behind the first: `false` when it
meets an entry that differs from `size` and returns early, `true` when it
runs to the end. -/
def allBlockSizesEqual (size : Nat) : List Nat → Bool
  | [] => true
  | x :: rest => if x ≠ size then false else allBlockSizesEqual size rest

/-- Effect of `std::vector<ossim_uint8>::resize(n)` on the buffer: the first
`n` elements are kept and zero bytes are appended up to length `n`. -/
def resizeBuf (buf : List Byte) (n : Nat) : List Byte :=
  buf.take n ++ List.replicate (n - buf.length) 0

/-- The function `ossimOpjNitfReader::initializeCompressedBuf()`. -/
def initializeCompressedBuf (r : Reader) : Reader :=
  match r.theNitfBlockSize with
  | [] => { r with theCompressedBuf := [] }
  | size :: rest =>
    if allBlockSizesEqual size rest then
      { r with theCompressedBuf := resizeBuf r.theCompressedBuf size }
    else
      { r with theCompressedBuf := [] }

/-! ## Positions of the terminators the loop records (used to state the claims) -/

/-- The positions just behind the terminators `FF 93` that the loop reads as
markers, in the list view: `pos` is the position of the first byte of the
list. The recursion is that of `scanBytes`. -/
def termEnds : List Byte → Nat → List Nat
  | [], _ => []
  | [_], _ => []
  | b :: c :: rest, pos =>
    if b = 0xff then
      if c = 0x90 then termEnds rest (pos + 2)
      else if c = 0x93 then (pos + 2) :: termEnds rest (pos + 2)
      else termEnds rest (pos + 2)
    else
      termEnds (c :: rest) (pos + 1)

/-- The distances between consecutive positions of a list, the first one
measured from `start`. -/
def gaps (start : Nat) : List Nat → List Nat
  | [] => []
  | e :: es => (e - start) :: gaps e es

/-! ## dumpTiles -/

namespace IStream

/-- Effect on the stream state of the sentry that every unformatted input
function constructs first: a stream that is not `good()` gets `failbit`. -/
def sentry (s : IStream) : IStream :=
  if s.good then s else { s with failbit := true }

/-- The call `tellg()` with its effect on the stream: the sentry, then the
value of `tellg` (`-1` when `fail()` holds). -/
def tellgPos (s : IStream) : IStream × Int :=
  (s.sentry, s.sentry.tellg)

/-- Effect of `seekg(pos)` or `seekg(pos, ios_base::beg)` for a position that
may be negative: as `seekg`, and a negative position makes the seek fail. -/
def seekgPos (s : IStream) (p : Int) : IStream :=
  if p < 0 then { s with eofbit := false, failbit := true }
  else s.seekg p.toNat

/-- Effect of `read(buf, 2)` on the stream and on the two bytes of `buf`
(`m0`, `m1` are the values they had). A stream that is not `good()` gets
`failbit` and stores nothing; when fewer than two bytes are left, those left
are stored and `eofbit` and `failbit` are set. -/
def read2 (s : IStream) (m0 m1 : Byte) : IStream × Byte × Byte :=
  if s.good then
    match s.bytes[s.pos]?, s.bytes[s.pos + 1]? with
    | some a, some b => ({ s with pos := s.pos + 2 }, a, b)
    | some a, none => ({ s with pos := s.pos + 1, eofbit := true, failbit := true }, a, m1)
    | none, _ => ({ s with eofbit := true, failbit := true }, m0, m1)
  else
    ({ s with failbit := true }, m0, m1)

end IStream

/-- The `parseStream` functions of the record classes `ossimJ2kSizRecord`,
`ossimJ2kCodRecord`, `ossimJ2kTlmRecord` and `ossimJ2kSotRecord`, which
`dumpTiles` calls and which belong to another library: each maps the stream
to the stream afterwards, and `sot` also gives the value of `thePsot` of the
record afterwards. -/
structure RecordParsers where
  siz : IStream → IStream
  cod : IStream → IStream
  tlm : IStream → IStream
  sot : IStream → IStream × Nat

/-- The loop of `dumpTiles` that looks for the first tile marker (source lines
266-296): the stream and `c` afterwards, and the value of `foundSot`. One
unit of fuel is one evaluation of the loop condition. -/
def findFirstSot (P : RecordParsers) : Nat → IStream → Byte → IStream × Byte × Bool
  | 0, s, c => (s, c, false)
  | fuel + 1, s, c =>
    match s.get c with
    | (s1, c1, false) => (s1, c1, false)
    | (s1, c1, true) =>
      if c1 = 0xff then
        match s1.get c1 with
        | (s2, c2, true) =>
          if c2 = 0x52 then findFirstSot P fuel (P.cod s2) c2
          else if c2 = 0x55 then findFirstSot P fuel (P.tlm s2) c2
          else if c2 = 0x90 then (s2, c2, true)
          else findFirstSot P fuel s2 c2
        | (s2, c2, false) => findFirstSot P fuel s2 c2
      else
        findFirstSot P fuel s1 c1

/-- One pass of the body of `for (ossim_uint32 i = 0; i < BLOCKS; ++i)` in
`dumpTiles` (source lines 305-311): `tellg`, `parseStream` of the SOT record,
`pos += thePsot`, `seekg(pos, ios_base::beg)`. -/
def sotStep (P : RecordParsers) (s : IStream) : IStream :=
  match s.tellgPos with
  | (s1, pos) =>
    match P.sot s1 with
    | (s2, psot) => s2.seekgPos (pos + (psot : Int))

/-- The stream after `n` passes of the `for` loop of `dumpTiles`, which is
also the stream at the start of pass `n` (counted from 0). -/
def sotWalk (P : RecordParsers) : Nat → IStream → IStream
  | 0, s => s
  | n + 1, s => sotWalk P n (sotStep P s)

/-- The loop of `dumpTiles` that looks for the end-of-codestream marker
(source lines 316-331): it reads to the end of the stream; the `tellg` of
line 327 is made on a good stream and leaves it as it is. -/
def findEoc : Nat → IStream → Byte → IStream × Byte
  | 0, s, c => (s, c)
  | fuel + 1, s, c =>
    match s.get c with
    | (s1, c1, false) => (s1, c1)
    | (s1, c1, true) =>
      if c1 = 0xff then
        match s1.get c1 with
        | (s2, c2, _) => findEoc fuel s2 c2
      else
        findEoc fuel s1 c1

/-- The function `ossimOpjNitfReader::dumpTiles(out)` as far as the stream is
concerned (what it writes to `out` is left out). `c0` is the indeterminate
initial value of the locals `c`, and `m0`, `m1` that of `markerField`. The
result is `none` when a header is present and the stream pointer is null (it
is dereferenced). The two `while` loops get the fuel `scanFuel`, one more
than the bytes of the file. -/
def dumpTiles (P : RecordParsers) (r : Reader) (c0 m0 m1 : Byte) : Option Reader :=
  match r.hdr with
  | none => some r
  | some hdr =>
    match r.theFileStr with
    | none => none
    | some str =>
      match str.tellgPos with
      | (s1, currentPos) =>
        let s5 : IStream :=
          if s1.good then
            match s1.read2 m0 m1 with
            | (s2, a, b) =>
              let found : IStream × Bool :=
                if a = 0xff ∧ b = 0x4f then
                  match s2.read2 a b with
                  | (t1, a2, b2) =>
                    let t2 := if a2 = 0xff ∧ b2 = 0x51 then P.siz t1 else t1
                    match findFirstSot P (scanFuel t2) t2 c0 with
                    | (t3, _, foundSot) => (t3, foundSot)
                else (s2, false)
              if found.2 then
                let BLOCKS := toU32 (hdr.blocksPerRow * hdr.blocksPerCol)
                let u1 := sotWalk P BLOCKS found.1
                (findEoc (scanFuel u1) u1 c0).1
              else found.1
          else s1
        let s6 := if s5.eofbit then s5.clear else s5
        some { r with theFileStr := some (s6.seekgPos currentPos) }

/-- Modelled from the spec: `ossimJ2kSotRecord::parseStream`, which is not
under src/. It parses the fixed-layout tile-part header that follows the
marker: ten bytes, of which bytes 4 to 7 hold the declared length of the
tile-part as a big-endian 32-bit count. On a good stream with ten bytes left
it consumes them and gives that length; with fewer left it consumes what is
left, sets `eofbit` and `failbit` and gives the length 0; a stream that is not
good gets `failbit` and nothing is consumed. -/
def sotParseStream (s : IStream) : IStream × Nat :=
  if s.good then
    if s.pos + 10 ≤ s.bytes.length then
      ({ s with pos := s.pos + 10 },
        ((s.bytes.getD (s.pos + 4) 0).val * 256 ^ 3 + (s.bytes.getD (s.pos + 5) 0).val * 256 ^ 2
          + (s.bytes.getD (s.pos + 6) 0).val * 256 + (s.bytes.getD (s.pos + 7) 0).val))
    else
      ({ s with pos := max s.pos s.bytes.length, eofbit := true, failbit := true }, 0)
  else
    ({ s with failbit := true }, 0)

/-- Record parsers for streams that hold no `FF 51`, `FF 52` or `FF 55`: the
SOT parser is `sotParseStream`, and the three that such a stream never
reaches leave the stream as it is. -/
def sotOnlyParsers : RecordParsers :=
  { siz := fun s => s, cod := fun s => s, tlm := fun s => s, sot := sotParseStream }

/-- A file with two tile-parts of 14 and 12 bytes: `FF 4F`, two bytes, the
first tile-part at position 4 (declared length 14), the second at position 18
(declared length 12), then `FF D9`. -/
def twoTileFile : List Byte :=
  [0xff, 0x4f, 0, 0,
   0xff, 0x90, 0, 10, 0, 0, 0, 0, 0, 14, 0, 1, 7, 7,
   0xff, 0x90, 0, 10, 0, 1, 0, 0, 0, 12, 0, 1,
   0xff, 0xd9]

/-- The part of `dumpTiles` between the test `theFileStr->good()` and the
test `if (foundSot)` (source lines 249-297), entered with the stream `s1`: the
read of the two start-of-codestream bytes, the read of the two bytes behind
them with the SIZ parse, and the search for the first tile marker. The
result is the stream afterwards and the value of `foundSot`. -/
def firstTileSearch (P : RecordParsers) (s1 : IStream) (c0 m0 m1 : Byte) : IStream × Bool :=
  match s1.read2 m0 m1 with
  | (s2, a, b) =>
    if a = 0xff ∧ b = 0x4f then
      match s2.read2 a b with
      | (t1, a2, b2) =>
        let t2 := if a2 = 0xff ∧ b2 = 0x51 then P.siz t1 else t1
        match findFirstSot P (scanFuel t2) t2 c0 with
        | (t3, _, foundSot) => (t3, foundSot)
    else (s2, false)

/-- The end of `dumpTiles` (source lines 336-342) on the stream `s5` the body
has left: `clear()` when `eof()` holds, then `seekg(currentPos)`. -/
def restoreCursor (s5 : IStream) (currentPos : Int) : IStream :=
  (if s5.eofbit then s5.clear else s5).seekgPos currentPos

theorem scanBytes_cons_ne (b : Byte) (l : List Byte) (pos bs : Nat) (offs szs : List Nat)
    (hb : b ≠ 0xff) :
    scanBytes (b :: l) pos bs offs szs = scanBytes l (pos + 1) (toU32 (bs + 1)) offs szs := by
  cases l with
  | nil => simp [scanBytes]
  | cons c rest => simp [scanBytes, hb]

/-- Once the stream is not good and `failbit` is set, the loop changes neither
the stream nor the tables. -/
theorem scanLoop_not_good (fuel : Nat) (st : ScanState) (hg : st.str.good = false)
    (hf : st.str.failbit = true) :
    (scanLoop fuel st).str = st.str ∧ (scanLoop fuel st).blockSize = st.blockSize ∧
    (scanLoop fuel st).offsets = st.offsets ∧ (scanLoop fuel st).sizes = st.sizes := by
  cases fuel with
  | zero => simp [scanLoop]
  | succ n =>
    have hs : { st.str with failbit := true } = st.str := by
      cases h : st.str; simp [h] at hf; simp [hf]
    simp [scanLoop, IStream.get, hg, hs]

/-- On a good stream, with more fuel than bytes ahead of the get pointer, the
loop runs until `get` fails at the end of the file (fuel does not run out),
and the tables it builds are those of the list view. -/
theorem scanLoop_scanBytes (fuel : Nat) :
    ∀ (s : IStream) (c : Byte) (bs : Nat) (offs szs : List Nat),
      s.good = true → s.pos ≤ s.bytes.length → s.bytes.length - s.pos < fuel →
      (scanLoop fuel ⟨s, c, bs, offs, szs⟩).str =
          { s with pos := s.bytes.length, eofbit := true, failbit := true } ∧
      ((scanLoop fuel ⟨s, c, bs, offs, szs⟩).blockSize,
       (scanLoop fuel ⟨s, c, bs, offs, szs⟩).offsets,
       (scanLoop fuel ⟨s, c, bs, offs, szs⟩).sizes) =
        scanBytes (s.bytes.drop s.pos) s.pos bs offs szs := by
  induction fuel with
  | zero => intro s c bs offs szs _ _ h; omega
  | succ n ih =>
    intro s c bs offs szs hg hp hf
    rcases Nat.lt_or_ge s.pos s.bytes.length with hlt | hge
    · -- a byte is available
      have hd : s.bytes.drop s.pos = s.bytes[s.pos] :: s.bytes.drop (s.pos + 1) :=
        List.drop_eq_getElem_cons hlt
      have hget : s.bytes[s.pos]? = some s.bytes[s.pos] := List.getElem?_eq_getElem hlt
      have hg1 : ({ s with pos := s.pos + 1 } : IStream).good = true := by
        simpa [IStream.good] using hg
      by_cases hb : s.bytes[s.pos] = 0xff
      · rcases Nat.lt_or_ge (s.pos + 1) s.bytes.length with hlt2 | hge2
        · have hd2 : s.bytes.drop (s.pos + 1) =
              s.bytes[s.pos + 1] :: s.bytes.drop (s.pos + 1 + 1) :=
            List.drop_eq_getElem_cons hlt2
          have hget2 : s.bytes[s.pos + 1]? = some s.bytes[s.pos + 1] :=
            List.getElem?_eq_getElem hlt2
          have hg2 : ({ s with pos := s.pos + 1 + 1 } : IStream).good = true := by
            simpa [IStream.good] using hg
          have hnf : ({ s with pos := s.pos + 1 + 1 } : IStream).fail = false := by
            simp [IStream.good] at hg
            simp [IStream.fail, hg]
          have hpos : ((s.pos : Int) + 1 + 1 - 2).toNat = s.pos := by omega
          have ih2 := fun c2 bs2 offs2 szs2 =>
            ih { s with pos := s.pos + 1 + 1 } c2 bs2 offs2 szs2 hg2
              (by simpa using hlt2) (by simp; omega)
          rw [hd, hd2]
          by_cases h90 : s.bytes[s.pos + 1] = 0x90
          · simp only [scanLoop, IStream.get, hg, hg1, hget, hget2, if_true, hb, h90,
              scanBytes, IStream.tellg, hnf]
            have := ih2 0x90 (toU32 (toU32 (bs + 1) + 1)) (offs ++ [s.pos]) szs
            simpa [hpos] using this
          · by_cases h93 : s.bytes[s.pos + 1] = 0x93
            · simp only [scanLoop, IStream.get, hg, hg1, hget, hget2, if_true, hb, h90, h93,
                scanBytes, if_false]
              have := ih2 0x93 0 offs (szs ++ [toU32 (toU32 (bs + 1) + 1)])
              simpa using this
            · simp only [scanLoop, IStream.get, hg, hg1, hget, hget2, if_true, hb, h90, h93,
                scanBytes, if_false]
              have := ih2 s.bytes[s.pos + 1] (toU32 (toU32 (bs + 1) + 1)) offs szs
              simpa using this
        · have hpe : s.pos + 1 = s.bytes.length := by omega
          have hd2 : s.bytes.drop (s.pos + 1) = [] := by simp [hpe]
          have hget2 : s.bytes[s.pos + 1]? = none := by simp [hpe]
          have hng := scanLoop_not_good n
            ⟨{ s with pos := s.pos + 1, eofbit := true, failbit := true }, 0xff,
              toU32 (bs + 1), offs, szs⟩ (by simp [IStream.good]) rfl
          rw [hd, hd2]
          simp only [scanLoop, IStream.get, hg, hg1, hget, hget2, if_true, hb, scanBytes]
          obtain ⟨h1, h2, h3, h4⟩ := hng
          simp only [h1, h2, h3, h4]
          simp [hpe]
      · have := ih { s with pos := s.pos + 1 } s.bytes[s.pos] (toU32 (bs + 1)) offs szs hg1
          (by simpa using hlt) (by simp; omega)
        rw [hd, scanBytes_cons_ne _ _ _ _ _ _ hb]
        simp only [scanLoop, IStream.get, hg, hget, if_true, hb, if_false]
        simpa using this
    · have hpe : s.pos = s.bytes.length := by omega
      have hget : s.bytes[s.pos]? = none := by simp [hpe]
      have hd : s.bytes.drop s.pos = [] := by simp [hpe]
      simp [scanLoop, IStream.get, hg, hget, hd, scanBytes, hpe]

theorem getElem?_lt {α : Type} (l : List α) (i : Nat) (a : α) (h : l[i]? = some a) :
    i < l.length := by
  by_contra hc
  rw [List.getElem?_eq_none (by omega)] at h
  cases h

/-- The whole call when `FF 4F` stands at the data location of a stream that
has not failed: the loop runs to the end of the file, the tables are those of
the list view, and the result is the outcome of the count check. -/
theorem scan_of_soc (r : Reader) (c0 : Byte) (hdr : ImageHeader) (s : IStream)
    (hh : r.hdr = some hdr) (hm : r.theReadMode = ReadMode.READ_JPEG_BLOCK)
    (hs : r.theFileStr = some s) (hnf : s.fail = false)
    (h0 : s.bytes[hdr.dataLocation]? = some 0xff)
    (h1 : s.bytes[hdr.dataLocation + 1]? = some 0x4f) :
    scanForJpegBlockOffsets r c0 =
      (decide ((scanTables s.bytes hdr.dataLocation).2.1.length
                  = toU32 (hdr.blocksPerRow * hdr.blocksPerCol) ∧
               (scanTables s.bytes hdr.dataLocation).2.2.length
                  = toU32 (hdr.blocksPerRow * hdr.blocksPerCol)),
       { r with theFileStr := some (atEnd s),
                theNitfBlockOffset := (scanTables s.bytes hdr.dataLocation).2.1,
                theNitfBlockSize := (scanTables s.bytes hdr.dataLocation).2.2 }) := by
  have hl1 := getElem?_lt _ _ _ h1
  have hfb : s.failbit = false ∧ s.badbit = false := by
    simpa [IStream.fail] using hnf
  obtain ⟨hfb, hbb⟩ := hfb
  have key := scanLoop_scanBytes (s.bytes.length + 1)
    { bytes := s.bytes, pos := hdr.dataLocation + 1 + 1, eofbit := false, failbit := false,
      badbit := false, seekPastEnd := s.seekPastEnd } 0x4f 2 [] []
    (by simp [IStream.good]) (by simpa using hl1) (by simp; omega)
  obtain ⟨k1, k2⟩ := key
  have k3 := congrArg (fun p => p.2.1) k2
  have k4 := congrArg (fun p => p.2.2) k2
  simp only at k3 k4
  have hle : hdr.dataLocation ≤ s.bytes.length := by omega
  have hseek : s.seekg hdr.dataLocation =
      { bytes := s.bytes, pos := hdr.dataLocation, eofbit := false, failbit := false,
        badbit := false, seekPastEnd := s.seekPastEnd } := by
    simp [IStream.seekg, IStream.fail, hfb, hbb, hle]
  have hget1 : ∀ c, IStream.get
      { bytes := s.bytes, pos := hdr.dataLocation, eofbit := false, failbit := false,
        badbit := false, seekPastEnd := s.seekPastEnd } c =
      ({ bytes := s.bytes, pos := hdr.dataLocation + 1, eofbit := false, failbit := false,
         badbit := false, seekPastEnd := s.seekPastEnd }, 0xff, true) := by
    intro c; simp [IStream.get, IStream.good, h0]
  have hget2 : ∀ c, IStream.get
      { bytes := s.bytes, pos := hdr.dataLocation + 1, eofbit := false, failbit := false,
        badbit := false, seekPastEnd := s.seekPastEnd } c =
      ({ bytes := s.bytes, pos := hdr.dataLocation + 1 + 1, eofbit := false, failbit := false,
         badbit := false, seekPastEnd := s.seekPastEnd }, 0x4f, true) := by
    intro c; simp [IStream.get, IStream.good, h1]
  simp only [scanForJpegBlockOffsets, hh, hs, hm, hseek, hget1, hget2, scanFuel, k1, k3, k4]
  simp [IStream.fail, IStream.seekg, IStream.clear, scanTables, atEnd]
  split_ifs <;> simp [*]

/-- The guard of line 118: with no header, no stream or another read mode the
call returns false and changes nothing. -/
theorem scan_guard (r : Reader) (c0 : Byte)
    (h : r.hdr = none ∨ r.theFileStr = none ∨ r.theReadMode ≠ ReadMode.READ_JPEG_BLOCK) :
    scanForJpegBlockOffsets r c0 = (false, r) := by
  unfold scanForJpegBlockOffsets
  cases hh : r.hdr <;> cases hs : r.theFileStr <;> simp_all

/-- Every call that passes the guard but does not find `FF 4F` on a stream
that has not failed returns false with both tables cleared; the stream keeps
its bytes, and a failed stream stays failed. -/
theorem scan_early (r : Reader) (c0 : Byte) (hdr : ImageHeader) (s : IStream)
    (hh : r.hdr = some hdr) (hm : r.theReadMode = ReadMode.READ_JPEG_BLOCK)
    (hs : r.theFileStr = some s)
    (hno : ¬ (s.fail = false ∧ s.bytes[hdr.dataLocation]? = some 0xff ∧
              s.bytes[hdr.dataLocation + 1]? = some 0x4f)) :
    ∃ s2 : IStream,
      scanForJpegBlockOffsets r c0 =
        (false, { r with theFileStr := some s2, theNitfBlockOffset := [],
                         theNitfBlockSize := [] }) ∧
      s2.bytes = s.bytes ∧ (s.fail = true → s2.fail = true) := by
  simp only [scanForJpegBlockOffsets, hh, hs, hm]
  by_cases hf : s.fail = true
  · have : (s.seekg hdr.dataLocation).fail = true := by
      simp [IStream.seekg, IStream.fail] at hf ⊢
      simp [hf]
    refine ⟨s.seekg hdr.dataLocation, by simp [this], ?_, fun _ => this⟩
    simp [IStream.seekg]; split_ifs <;> rfl
  · have hff : s.fail = false := by simpa using hf
    have hb : s.failbit = false ∧ s.badbit = false := by simpa [IStream.fail] using hff
    obtain ⟨hfb, hbb⟩ := hb
    simp only [hff, true_and] at hno
    by_cases hk : (hdr.dataLocation ≤ s.bytes.length || s.seekPastEnd) = true
    · have hseek : s.seekg hdr.dataLocation =
          { bytes := s.bytes, pos := hdr.dataLocation, eofbit := false, failbit := false,
            badbit := false, seekPastEnd := s.seekPastEnd } := by
        simp only [IStream.seekg, IStream.fail, hfb, hbb, hk]; simp
      rw [hseek]
      cases h0 : s.bytes[hdr.dataLocation]? with
      | none =>
        by_cases hc : c0 = 0xff
        · subst hc
          refine ⟨{ bytes := s.bytes, pos := hdr.dataLocation, eofbit := true,
                    failbit := true, badbit := false, seekPastEnd := s.seekPastEnd }, ?_, rfl,
                  by simp [hff]⟩
          simp [IStream.get, IStream.good, IStream.fail, h0]
        · refine ⟨{ bytes := s.bytes, pos := hdr.dataLocation, eofbit := true,
                    failbit := true, badbit := false, seekPastEnd := s.seekPastEnd }, ?_, rfl,
                  by simp [hff]⟩
          simp [IStream.get, IStream.good, IStream.fail, h0, hc]
      | some b0 =>
        by_cases hc : b0 = 0xff
        · subst hc
          cases h1 : s.bytes[hdr.dataLocation + 1]? with
          | none =>
            refine ⟨{ bytes := s.bytes, pos := hdr.dataLocation + 1, eofbit := true,
                      failbit := true, badbit := false, seekPastEnd := s.seekPastEnd }, ?_, rfl,
                    by simp [hff]⟩
            simp [IStream.get, IStream.good, IStream.fail, h0, h1]
          | some b1 =>
            have hb1 : b1 ≠ 0x4f := by
              intro hb1; subst hb1; exact hno ⟨h0, h1⟩
            refine ⟨{ bytes := s.bytes, pos := hdr.dataLocation + 1 + 1, eofbit := false,
                      failbit := false, badbit := false, seekPastEnd := s.seekPastEnd }, ?_, rfl,
                    by simp [hff]⟩
            simp [IStream.get, IStream.good, IStream.fail, h0, h1, hb1]
        · refine ⟨{ bytes := s.bytes, pos := hdr.dataLocation + 1, eofbit := false,
                    failbit := false, badbit := false, seekPastEnd := s.seekPastEnd }, ?_, rfl,
                  by simp [hff]⟩
          simp [IStream.get, IStream.good, IStream.fail, h0, hc]
    · have hseek : s.seekg hdr.dataLocation =
          { bytes := s.bytes, pos := s.pos, eofbit := false, failbit := true,
            badbit := false, seekPastEnd := s.seekPastEnd } := by
        simp only [IStream.seekg, IStream.fail, hfb, hbb, hk]; simp
      rw [hseek]
      exact ⟨{ bytes := s.bytes, pos := s.pos, eofbit := false, failbit := true,
               badbit := false, seekPastEnd := s.seekPastEnd },
             by simp [IStream.fail], rfl, by simp [hff]⟩

/-! ## Claims about the count check and the start-of-codestream check -/

/-- C1: when the bytes at the data location are `FF 4F` (header present, read
mode `READ_JPEG_BLOCK`, stream present and not failed), the scan returns true
exactly when the number of recorded offsets and the number of recorded sizes
both equal `blocksPerRow * blocksPerCol` taken as an `ossim_uint32`. -/
theorem scan_true_iff_counts_match (r : Reader) (c0 : Byte) (hdr : ImageHeader) (s : IStream)
    (hh : r.hdr = some hdr) (hm : r.theReadMode = ReadMode.READ_JPEG_BLOCK)
    (hs : r.theFileStr = some s) (hnf : s.fail = false)
    (h0 : s.bytes[hdr.dataLocation]? = some 0xff)
    (h1 : s.bytes[hdr.dataLocation + 1]? = some 0x4f) :
    (scanForJpegBlockOffsets r c0).1 = true ↔
      ((scanForJpegBlockOffsets r c0).2.theNitfBlockOffset.length
          = toU32 (hdr.blocksPerRow * hdr.blocksPerCol) ∧
       (scanForJpegBlockOffsets r c0).2.theNitfBlockSize.length
          = toU32 (hdr.blocksPerRow * hdr.blocksPerCol)) := by
  rw [scan_of_soc r c0 hdr s hh hm hs hnf h0 h1]
  simp

/-- Witness for C1: one tile-part and a 1 x 1 grid; the scan returns true. -/
theorem scan_true_iff_counts_match_witness :
    (scanForJpegBlockOffsets
        (sampleReader [0xff, 0x4f, 0xff, 0x90, 0, 0xff, 0x93, 0] 0 0 1 1) 0).1 = true ↔
      ((scanForJpegBlockOffsets
          (sampleReader [0xff, 0x4f, 0xff, 0x90, 0, 0xff, 0x93, 0] 0 0 1 1) 0).2.theNitfBlockOffset.length
          = toU32 (1 * 1) ∧
       (scanForJpegBlockOffsets
          (sampleReader [0xff, 0x4f, 0xff, 0x90, 0, 0xff, 0x93, 0] 0 0 1 1) 0).2.theNitfBlockSize.length
          = toU32 (1 * 1)) :=
  scan_true_iff_counts_match
    (sampleReader [0xff, 0x4f, 0xff, 0x90, 0, 0xff, 0x93, 0] 0 0 1 1) 0
    { dataLocation := 0, blocksPerRow := 1, blocksPerCol := 1 }
    { bytes := [0xff, 0x4f, 0xff, 0x90, 0, 0xff, 0x93, 0], pos := 0, eofbit := false,
      failbit := false, badbit := false, seekPastEnd := true }
    rfl rfl rfl rfl (by decide) (by decide)

theorem drop_cons_getElem? {α : Type} (l : List α) (n : Nat) (a : α) (t : List α)
    (h : l.drop n = a :: t) : l[n]? = some a ∧ l.drop (n + 1) = t := by
  constructor
  · have := List.getElem?_drop l n 0
    rw [h] at this
    simpa using this.symm
  · rw [← List.tail_drop, h]; rfl

/-- Every offset the list view records lies at a `FF 90` pair of the file, at
or behind the position where the scan started. -/
theorem scanBytes_offsets_valid (bytes : List Byte) (lo : Nat) :
    ∀ (l : List Byte) (pos bs : Nat) (offs szs : List Nat),
      bytes.drop pos = l → lo ≤ pos →
      (∀ o ∈ offs, lo ≤ o ∧ bytes[o]? = some 0xff ∧ bytes[o + 1]? = some 0x90) →
      ∀ o ∈ (scanBytes l pos bs offs szs).2.1,
        lo ≤ o ∧ bytes[o]? = some 0xff ∧ bytes[o + 1]? = some 0x90 := by
  intro l pos bs offs szs
  induction l, pos, bs, offs, szs using scanBytes.induct with
  | case1 pos bs offs szs => intro _ _ h; simpa [scanBytes] using h
  | case2 b pos bs offs szs => intro _ _ h; simpa [scanBytes] using h
  | case3 rest pos bs offs szs ih =>
    intro hd hlo h
    obtain ⟨e0, d1⟩ := drop_cons_getElem? _ _ _ _ hd
    obtain ⟨e1, d2⟩ := drop_cons_getElem? _ _ _ _ d1
    simp only [scanBytes, if_true]
    apply ih d2 (by omega)
    intro o ho
    rcases List.mem_append.mp ho with ho | ho
    · exact h o ho
    · simp at ho; subst ho; exact ⟨hlo, e0, e1⟩
  | case4 rest pos bs offs szs hne ih =>
    intro hd hlo h
    obtain ⟨e0, d1⟩ := drop_cons_getElem? _ _ _ _ hd
    obtain ⟨e1, d2⟩ := drop_cons_getElem? _ _ _ _ d1
    simp only [scanBytes, hne, if_true, if_false]
    exact ih d2 (by omega) h
  | case5 c rest pos bs offs szs hc h93 ih =>
    intro hd hlo h
    obtain ⟨e0, d1⟩ := drop_cons_getElem? _ _ _ _ hd
    obtain ⟨e1, d2⟩ := drop_cons_getElem? _ _ _ _ d1
    simp only [scanBytes, hc, h93, if_true, if_false]
    exact ih d2 (by omega) h
  | case6 b c rest pos bs offs szs hb ih =>
    intro hd hlo h
    obtain ⟨e0, d1⟩ := drop_cons_getElem? _ _ _ _ hd
    simp only [scanBytes, hb, if_false]
    exact ih d1 (by omega) h

/-- C3: every entry the scan records in the offsets table is an absolute file
position `o` with `o >= dataOffset + 2`, and the file holds `FF` at `o` and
`90` at `o + 1`. -/
theorem recorded_offset_is_start_marker (r : Reader) (c0 : Byte) (hdr : ImageHeader)
    (s : IStream) (hh : r.hdr = some hdr) (hm : r.theReadMode = ReadMode.READ_JPEG_BLOCK)
    (hs : r.theFileStr = some s) :
    ∀ o ∈ (scanForJpegBlockOffsets r c0).2.theNitfBlockOffset,
      hdr.dataLocation + 2 ≤ o ∧ s.bytes[o]? = some 0xff ∧ s.bytes[o + 1]? = some 0x90 := by
  by_cases hsoc : s.fail = false ∧ s.bytes[hdr.dataLocation]? = some 0xff ∧
      s.bytes[hdr.dataLocation + 1]? = some 0x4f
  · obtain ⟨hnf, h0, h1⟩ := hsoc
    rw [scan_of_soc r c0 hdr s hh hm hs hnf h0 h1]
    exact scanBytes_offsets_valid s.bytes (hdr.dataLocation + 2) _ _ _ _ _ rfl
      (Nat.le_refl _) (by simp)
  · obtain ⟨s2, he, _, _⟩ := scan_early r c0 hdr s hh hm hs hsoc
    rw [he]; simp

/-- Witness for C3: a file with nine bytes ahead of the codestream; the scan
records position 13, which is behind the data location 9 and holds `FF 90`. -/
theorem recorded_offset_is_start_marker_witness :
    13 ∈ (scanForJpegBlockOffsets
        (sampleReader [1, 2, 3, 4, 5, 6, 7, 8, 9, 0xff, 0x4f, 0, 0, 0xff, 0x90, 0, 0xff, 0x93]
          0 9 1 1) 0).2.theNitfBlockOffset ∧
    9 + 2 ≤ 13 ∧
    ([1, 2, 3, 4, 5, 6, 7, 8, 9, 0xff, 0x4f, 0, 0, 0xff, 0x90, 0, 0xff, 0x93] : List Byte)[13]?
      = some 0xff ∧
    ([1, 2, 3, 4, 5, 6, 7, 8, 9, 0xff, 0x4f, 0, 0, 0xff, 0x90, 0, 0xff, 0x93] : List Byte)[13 + 1]?
      = some 0x90 :=
  ⟨by decide,
   recorded_offset_is_start_marker
    (sampleReader [1, 2, 3, 4, 5, 6, 7, 8, 9, 0xff, 0x4f, 0, 0, 0xff, 0x90, 0, 0xff, 0x93]
      0 9 1 1) 0
    { dataLocation := 9, blocksPerRow := 1, blocksPerCol := 1 }
    { bytes := [1, 2, 3, 4, 5, 6, 7, 8, 9, 0xff, 0x4f, 0, 0, 0xff, 0x90, 0, 0xff, 0x93],
      pos := 0, eofbit := false, failbit := false, badbit := false, seekPastEnd := true }
    rfl rfl rfl 13 (by decide)⟩

/-- C5: when the two bytes at the data location are not `FF 4F` (the first is
missing or not `FF`, or the second is missing or not `4F`), the scan returns
false and both tables are empty afterwards, whatever they held before and
whatever state the stream was in. -/
theorem scan_without_soc_fails_empty (r : Reader) (c0 : Byte) (hdr : ImageHeader)
    (s : IStream) (hh : r.hdr = some hdr) (hm : r.theReadMode = ReadMode.READ_JPEG_BLOCK)
    (hs : r.theFileStr = some s)
    (hno : ¬ (s.bytes[hdr.dataLocation]? = some 0xff ∧
              s.bytes[hdr.dataLocation + 1]? = some 0x4f)) :
    (scanForJpegBlockOffsets r c0).1 = false ∧
    (scanForJpegBlockOffsets r c0).2.theNitfBlockOffset = [] ∧
    (scanForJpegBlockOffsets r c0).2.theNitfBlockSize = [] := by
  obtain ⟨s2, he, _, _⟩ :=
    scan_early r c0 hdr s hh hm hs (fun h => hno ⟨h.2.1, h.2.2⟩)
  rw [he]; simp

/-- Witness for C5: the second byte at the data location is `4E`; the stale
entries of both tables are gone. -/
theorem scan_without_soc_fails_empty_witness :
    (scanForJpegBlockOffsets
        (sampleReader [9, 0xff, 0x4e, 0xff, 0x90, 0, 0xff, 0x93] 0 1 1 1) 0).1 = false ∧
    (scanForJpegBlockOffsets
        (sampleReader [9, 0xff, 0x4e, 0xff, 0x90, 0, 0xff, 0x93] 0 1 1 1) 0).2.theNitfBlockOffset
      = [] ∧
    (scanForJpegBlockOffsets
        (sampleReader [9, 0xff, 0x4e, 0xff, 0x90, 0, 0xff, 0x93] 0 1 1 1) 0).2.theNitfBlockSize
      = [] :=
  scan_without_soc_fails_empty
    (sampleReader [9, 0xff, 0x4e, 0xff, 0x90, 0, 0xff, 0x93] 0 1 1 1) 0
    { dataLocation := 1, blocksPerRow := 1, blocksPerCol := 1 }
    { bytes := [9, 0xff, 0x4e, 0xff, 0x90, 0, 0xff, 0x93], pos := 0, eofbit := false,
      failbit := false, badbit := false, seekPastEnd := true }
    rfl rfl rfl (by decide)

/-- C6: a second call of the scan, made on the reader the first call left
(its tables, its stream state and get pointer), returns the same boolean and
leaves the same offsets and sizes tables; `c0` and `c1` are the indeterminate
initial values of the local `c` in the two calls. -/
theorem scan_idempotent (r : Reader) (c0 c1 : Byte) :
    (scanForJpegBlockOffsets (scanForJpegBlockOffsets r c0).2 c1).1
        = (scanForJpegBlockOffsets r c0).1 ∧
    (scanForJpegBlockOffsets (scanForJpegBlockOffsets r c0).2 c1).2.theNitfBlockOffset
        = (scanForJpegBlockOffsets r c0).2.theNitfBlockOffset ∧
    (scanForJpegBlockOffsets (scanForJpegBlockOffsets r c0).2 c1).2.theNitfBlockSize
        = (scanForJpegBlockOffsets r c0).2.theNitfBlockSize := by
  by_cases hg : r.hdr = none ∨ r.theFileStr = none ∨ r.theReadMode ≠ ReadMode.READ_JPEG_BLOCK
  · rw [scan_guard r c0 hg]; simp only
    rw [scan_guard r c1 hg]; simp
  · have hm : r.theReadMode = ReadMode.READ_JPEG_BLOCK := by
      by_contra h; exact hg (Or.inr (Or.inr h))
    cases hh : r.hdr with
    | none => exact absurd (Or.inl hh) hg
    | some hdr =>
      cases hs : r.theFileStr with
      | none => exact absurd (Or.inr (Or.inl hs)) hg
      | some s =>
        by_cases hsoc : s.fail = false ∧ s.bytes[hdr.dataLocation]? = some 0xff ∧
            s.bytes[hdr.dataLocation + 1]? = some 0x4f
        · obtain ⟨hnf, h0, h1⟩ := hsoc
          rw [scan_of_soc r c0 hdr s hh hm hs hnf h0 h1]
          simp only
          have h2 := scan_of_soc
            { r with theFileStr := some (atEnd s),
                     theNitfBlockOffset := (scanTables s.bytes hdr.dataLocation).2.1,
                     theNitfBlockSize := (scanTables s.bytes hdr.dataLocation).2.2 }
            c1 hdr (atEnd s) hh hm rfl (by simp [atEnd, IStream.fail])
            (by simpa [atEnd] using h0) (by simpa [atEnd] using h1)
          rw [h2]
          simp [atEnd]
        · obtain ⟨s2, he, hb, hf⟩ := scan_early r c0 hdr s hh hm hs hsoc
          rw [he]; simp only
          have hsoc2 : ¬ (s2.fail = false ∧ s2.bytes[hdr.dataLocation]? = some 0xff ∧
              s2.bytes[hdr.dataLocation + 1]? = some 0x4f) := by
            rw [hb]
            intro h
            by_cases hfl : s.fail = true
            · have := hf hfl; rw [h.1] at this; cases this
            · exact hsoc ⟨by simpa using hfl, h.2⟩
          obtain ⟨s3, he2, _, _⟩ := scan_early
            { r with theFileStr := some s2, theNitfBlockOffset := [], theNitfBlockSize := [] }
            c1 hdr s2 hh hm rfl hsoc2
          rw [he2]; simp

/-! ## Claims about the stream cursor and the block lookup -/

/-- C7, counterexample: with the get pointer at position 1 before the call, a
scan that runs to the end of a three-byte stream does not leave the pointer at
position 1. -/
theorem scan_cursor_not_restored :
    (sampleReader [0xff, 0x4f, 0] 1 0 1 1).theFileStr.map IStream.pos = some 1 ∧
    (scanForJpegBlockOffsets (sampleReader [0xff, 0x4f, 0] 1 0 1 1) 0).2.theFileStr.map
        IStream.pos ≠ some 1 := by
  decide

/-- C7, amended: when the scan runs to end-of-stream (header present, read
mode `READ_JPEG_BLOCK`, stream not failed, `FF 4F` at the data location), the
stream it leaves behind has no state bit set and is the same stream, get
pointer included, for every position `p` the get pointer had before the call:
the caller's position is not restored. -/
theorem scan_cursor_independent_of_start (r : Reader) (c0 : Byte) (hdr : ImageHeader)
    (s : IStream) (p : Nat)
    (hh : r.hdr = some hdr) (hm : r.theReadMode = ReadMode.READ_JPEG_BLOCK)
    (hs : r.theFileStr = some s) (hnf : s.fail = false)
    (h0 : s.bytes[hdr.dataLocation]? = some 0xff)
    (h1 : s.bytes[hdr.dataLocation + 1]? = some 0x4f) :
    (scanForJpegBlockOffsets { r with theFileStr := some { s with pos := p } } c0).2.theFileStr
        = (scanForJpegBlockOffsets r c0).2.theFileStr ∧
    (scanForJpegBlockOffsets r c0).2.theFileStr.map IStream.good = some true := by
  rw [scan_of_soc r c0 hdr s hh hm hs hnf h0 h1]
  rw [scan_of_soc { r with theFileStr := some { s with pos := p } } c0 hdr { s with pos := p }
    hh hm rfl (by simpa [IStream.fail] using hnf) h0 h1]
  simp [atEnd, IStream.good]

/-- Witness for C7 (amended): the stream of the counterexample, started at
position 1 and at position 2. -/
theorem scan_cursor_independent_of_start_witness :
    (scanForJpegBlockOffsets
        { sampleReader [0xff, 0x4f, 0] 1 0 1 1 with
          theFileStr := some { bytes := [0xff, 0x4f, 0], pos := 2, eofbit := false,
                               failbit := false, badbit := false, seekPastEnd := true } }
        0).2.theFileStr
      = (scanForJpegBlockOffsets (sampleReader [0xff, 0x4f, 0] 1 0 1 1) 0).2.theFileStr ∧
    (scanForJpegBlockOffsets (sampleReader [0xff, 0x4f, 0] 1 0 1 1) 0).2.theFileStr.map
        IStream.good = some true :=
  scan_cursor_independent_of_start (sampleReader [0xff, 0x4f, 0] 1 0 1 1) 0
    { dataLocation := 0, blocksPerRow := 1, blocksPerCol := 1 }
    { bytes := [0xff, 0x4f, 0], pos := 1, eofbit := false, failbit := false,
      badbit := false, seekPastEnd := true }
    2 rfl rfl rfl rfl (by decide) (by decide)

/-- C8, counterexample: for a 2 x 1 grid of 4 x 4 blocks whose index was built
with success (offsets 2 and 9, sizes 7 and 7), the lookup for pixel (4, 0) of
block 1 seeks to, and hands the decoder, position 0, not the offset 9 of
block 1. -/
theorem block_lookup_not_at_index_entry :
    (scanForJpegBlockOffsets
        (sampleReader [0xff, 0x4f, 0xff, 0x90, 0, 0xff, 0x93, 0, 0, 0xff, 0x90, 0, 0xff, 0x93]
          0 0 2 1) 0).1 = true ∧
    (scanForJpegBlockOffsets
        (sampleReader [0xff, 0x4f, 0xff, 0x90, 0, 0xff, 0x93, 0, 0, 0xff, 0x90, 0, 0xff, 0x93]
          0 0 2 1) 0).2.theNitfBlockOffset = [2, 9] ∧
    (scanForJpegBlockOffsets
        (sampleReader [0xff, 0x4f, 0xff, 0x90, 0, 0xff, 0x93, 0, 0, 0xff, 0x90, 0, 0xff, 0x93]
          0 0 2 1) 0).2.theNitfBlockSize = [7, 7] ∧
    uncompressJpegBlock
        (scanForJpegBlockOffsets
          (sampleReader [0xff, 0x4f, 0xff, 0x90, 0, 0xff, 0x93, 0, 0, 0xff, 0x90, 0, 0xff, 0x93]
            0 0 2 1) 0).2 4 0 =
      some { ret := true, seekTarget := some 0,
             decodeRect := some { ul := { x := 4, y := 0 }, lr := { x := 7, y := 3 } },
             decodeOffset := some 0 } := by
  decide

/-- C8, amended: with a header, a stream and nonzero block dimensions, the
lookup for any pixel seeks to the data location of the header and hands the
decoder that same offset, whatever block the pixel lies in; the offsets and
sizes tables play no part in it. -/
theorem block_access_at_data_location (r : Reader) (hdr : ImageHeader) (s : IStream)
    (x y : Nat) (hh : r.hdr = some hdr) (hs : r.theFileStr = some s)
    (hw : i32ToU32 r.theCacheSize.x ≠ 0) (hv : i32ToU32 r.theCacheSize.y ≠ 0) :
    ∃ a : BlockAccess,
      uncompressJpegBlock r x y = some a ∧
      a.seekTarget = some hdr.dataLocation ∧ a.decodeOffset = some hdr.dataLocation ∧
      ∀ offs szs : List Nat,
        uncompressJpegBlock
          { r with theNitfBlockOffset := offs, theNitfBlockSize := szs } x y = some a := by
  simp [uncompressJpegBlock, hh, hs, hw, hv]

/-- Witness for C8 (amended): the reader of the counterexample. -/
theorem block_access_at_data_location_witness :
    ∃ a : BlockAccess,
      uncompressJpegBlock (sampleReader [0xff, 0x4f] 0 5 2 1) 4 0 = some a ∧
      a.seekTarget = some 5 ∧ a.decodeOffset = some 5 ∧
      ∀ offs szs : List Nat,
        uncompressJpegBlock
          { sampleReader [0xff, 0x4f] 0 5 2 1 with
            theNitfBlockOffset := offs, theNitfBlockSize := szs } 4 0 = some a :=
  block_access_at_data_location (sampleReader [0xff, 0x4f] 0 5 2 1)
    { dataLocation := 5, blocksPerRow := 2, blocksPerCol := 1 }
    { bytes := [0xff, 0x4f], pos := 0, eofbit := false, failbit := false,
      badbit := false, seekPastEnd := true }
    4 0 rfl rfl (by decide) (by decide)

/-- C9, counterexample: in a 1 x 1 grid of 4 x 4 blocks, pixel (100, 100) has
block column 25 and block row 25, both outside the grid, and the lookup
returns true. -/
theorem out_of_grid_lookup_succeeds :
    100 / 4 ≥ 1 ∧
    (uncompressJpegBlock (sampleReader [0xff, 0x4f] 0 0 1 1) 100 100).map BlockAccess.ret
      = some true := by
  decide

/-- C9, amended: the lookup makes no grid check. With a header, a stream and
nonzero block dimensions it returns true for every pixel coordinate, inside
the grid or not; with no current image header it returns false. -/
theorem lookup_returns_true_for_every_pixel (r : Reader) (x y : Nat) :
    (∀ (hdr : ImageHeader) (s : IStream), r.hdr = some hdr → r.theFileStr = some s →
        i32ToU32 r.theCacheSize.x ≠ 0 → i32ToU32 r.theCacheSize.y ≠ 0 →
        (uncompressJpegBlock r x y).map BlockAccess.ret = some true) ∧
    (r.hdr = none → (uncompressJpegBlock r x y).map BlockAccess.ret = some false) := by
  constructor
  · intro hdr s hh hs hw hv
    simp [uncompressJpegBlock, hh, hs, hw, hv]
  · intro hh
    simp [uncompressJpegBlock, hh]

/-- Witness for C9 (amended): the out-of-grid pixel of the counterexample. -/
theorem lookup_returns_true_for_every_pixel_witness :
    (uncompressJpegBlock (sampleReader [0xff, 0x4f] 0 0 1 1) 100 100).map BlockAccess.ret
      = some true :=
  (lookup_returns_true_for_every_pixel (sampleReader [0xff, 0x4f] 0 0 1 1) 100 100).1
    { dataLocation := 0, blocksPerRow := 1, blocksPerCol := 1 }
    { bytes := [0xff, 0x4f], pos := 0, eofbit := false, failbit := false,
      badbit := false, seekPastEnd := true }
    rfl rfl (by decide) (by decide)

/-! ## Scanning across runs of bytes that hold no marker -/

theorem toU32_add_toU32 (a b : Nat) : toU32 (toU32 a + b) = toU32 (a + b) := by
  simp [toU32, Nat.add_mod]

theorem toU32_idem (a : Nat) : toU32 (toU32 a) = toU32 a := by
  simp [toU32]

theorem hasMarkerPair_tail (b : Byte) (t : List Byte) (h : hasMarkerPair (b :: t) = false) :
    hasMarkerPair t = false := by
  cases t with
  | nil => rfl
  | cons c rest =>
    simp only [hasMarkerPair, Bool.or_eq_false_iff] at h
    exact h.2

theorem quietSeg_tail (b c : Byte) (t : List Byte) (h : quietSeg (b :: c :: t) = true) :
    quietSeg (c :: t) = true := by
  simp only [quietSeg, Bool.and_eq_true, Bool.not_eq_true', List.getLast?_cons_cons] at h ⊢
  exact ⟨hasMarkerPair_tail _ _ h.1, h.2⟩

theorem quietSeg_tail2 (b c : Byte) (t : List Byte) (h : quietSeg (b :: c :: t) = true) :
    quietSeg t = true := by
  have h1 := quietSeg_tail b c t h
  cases t with
  | nil => decide
  | cons d rest => exact quietSeg_tail c d rest h1

/-- The loop, in its list view, runs across a quiet run of bytes without
recording anything: it only advances the position and the byte counter. -/
theorem scanBytes_quiet (n : Nat) :
    ∀ (seg rest : List Byte) (pos bs : Nat) (offs szs : List Nat),
      seg.length ≤ n → quietSeg seg = true →
      scanBytes (seg ++ rest) pos (toU32 bs) offs szs =
        scanBytes rest (pos + seg.length) (toU32 (bs + seg.length)) offs szs := by
  induction n using Nat.strong_induction_on with
  | _ n ih =>
    intro seg rest pos bs offs szs hn hq
    match seg, hn, hq with
    | [], _, _ => simp
    | [b], _, hq =>
      have hb : b ≠ 0xff := by
        intro hb; subst hb; revert hq; decide
      simp [scanBytes_cons_ne _ _ _ _ _ _ hb, toU32_add_toU32]
    | b :: c :: t, hn, hq =>
      by_cases hb : b = 0xff
      · subst hb
        have hc : c ≠ 0x90 ∧ c ≠ 0x93 := by
          simp only [quietSeg, hasMarkerPair, Bool.and_eq_true, Bool.not_eq_true',
            Bool.or_eq_false_iff] at hq
          have := hq.1.1
          simp at this
          exact this
        have hq2 := quietSeg_tail2 _ _ _ hq
        have := ih t.length (by simp at hn; omega) t rest (pos + 2) (bs + 1 + 1) offs szs
          (Nat.le_refl _) hq2
        simp only [List.cons_append, scanBytes, hc.1, hc.2, if_true, if_false,
          toU32_add_toU32]
        show scanBytes (t ++ rest) (pos + 2) (toU32 (bs + 1 + 1)) offs szs = _
        rw [this]
        simp only [List.length_cons]
        rw [show pos + 2 + t.length = pos + (t.length + 1 + 1) by omega,
          show bs + 1 + 1 + t.length = bs + (t.length + 1 + 1) by omega]
      · have hq1 := quietSeg_tail _ _ _ hq
        have := ih (t.length + 1) (by simp at hn; omega) (c :: t) rest (pos + 1) (bs + 1)
          offs szs (by simp) hq1
        rw [List.cons_append, scanBytes_cons_ne _ _ _ _ _ _ hb, toU32_add_toU32, this]
        simp only [List.length_cons]
        rw [show pos + 1 + (t.length + 1) = pos + (t.length + 1 + 1) by omega,
          show bs + 1 + (t.length + 1) = bs + (t.length + 1 + 1) by omega]

theorem hasMarkerPair_of_no_ff (seg : List Byte) (h : (0xff : Byte) ∉ seg) :
    hasMarkerPair seg = false := by
  induction seg with
  | nil => rfl
  | cons b t ih =>
    have hb : b ≠ 0xff := fun e => h (by simp [e])
    have ht : (0xff : Byte) ∉ t := fun e => h (List.mem_cons_of_mem _ e)
    cases t with
    | nil => rfl
    | cons c rest =>
      simp only [hasMarkerPair, Bool.or_eq_false_iff]
      exact ⟨by simp [hb], ih ht⟩

theorem quietSeg_of_no_ff (seg : List Byte) (h : (0xff : Byte) ∉ seg) :
    quietSeg seg = true := by
  simp only [quietSeg, Bool.and_eq_true, Bool.not_eq_true', hasMarkerPair_of_no_ff seg h,
    true_and]
  simp only [bne_iff_ne, ne_eq]
  intro e
  exact h (List.mem_of_getLast?_eq_some e)

theorem getElem?_at_length {α : Type} (pre : List α) (a : α) (t : List α) :
    (pre ++ a :: t)[pre.length]? = some a := by
  rw [List.getElem?_append_right (Nat.le_refl _)]; simp

theorem getElem?_at_length_succ {α : Type} (pre : List α) (a b : α) (t : List α) :
    (pre ++ a :: b :: t)[pre.length + 1]? = some b := by
  rw [List.getElem?_append_right (by omega)]; simp

theorem drop_length_add_two {α : Type} (pre : List α) (a b : α) (t : List α) :
    (pre ++ a :: b :: t).drop (pre.length + 2) = t := by
  rw [List.drop_append]; rfl

/-- C10: a stream made of `FF 4F` at the data location, header bytes without
`FF`, one start marker `FF 90`, and trailing bytes without `FF` up to the cut:
the scan ends with the one offset of that marker and an empty sizes table,
and returns false whatever the grid dimensions of the header are. -/
theorem truncated_after_first_start_marker (r : Reader) (c0 : Byte) (hdr : ImageHeader)
    (s : IStream) (pre hdrBytes trail : List Byte)
    (hh : r.hdr = some hdr) (hm : r.theReadMode = ReadMode.READ_JPEG_BLOCK)
    (hs : r.theFileStr = some s) (hnf : s.fail = false)
    (hb : s.bytes = pre ++ ([0xff, 0x4f] ++ hdrBytes ++ [0xff, 0x90] ++ trail))
    (hpre : pre.length = hdr.dataLocation)
    (hq1 : (0xff : Byte) ∉ hdrBytes) (hq2 : (0xff : Byte) ∉ trail) :
    (scanForJpegBlockOffsets r c0).1 = false ∧
    (scanForJpegBlockOffsets r c0).2.theNitfBlockOffset
        = [hdr.dataLocation + 2 + hdrBytes.length] ∧
    (scanForJpegBlockOffsets r c0).2.theNitfBlockSize = [] := by
  have hb2 : s.bytes = pre ++ 0xff :: 0x4f :: (hdrBytes ++ 0xff :: 0x90 :: trail) := by
    rw [hb]; simp
  have h0 : s.bytes[hdr.dataLocation]? = some 0xff := by
    rw [hb2, ← hpre]; exact getElem?_at_length _ _ _
  have h1 : s.bytes[hdr.dataLocation + 1]? = some 0x4f := by
    rw [hb2, ← hpre]; exact getElem?_at_length_succ _ _ _ _
  have hd : s.bytes.drop (hdr.dataLocation + 2) = hdrBytes ++ 0xff :: 0x90 :: trail := by
    rw [hb2, ← hpre]; exact drop_length_add_two _ _ _ _
  have e1 : scanBytes (hdrBytes ++ 0xff :: 0x90 :: trail) (hdr.dataLocation + 2) 2 [] [] =
      scanBytes (0xff :: 0x90 :: trail) (hdr.dataLocation + 2 + hdrBytes.length)
        (toU32 (2 + hdrBytes.length)) [] [] :=
    scanBytes_quiet hdrBytes.length hdrBytes (0xff :: 0x90 :: trail)
      (hdr.dataLocation + 2) 2 [] [] (Nat.le_refl _) (quietSeg_of_no_ff _ hq1)
  have e2 := fun p b => scanBytes_quiet trail.length trail [] p b
    [hdr.dataLocation + 2 + hdrBytes.length] [] (Nat.le_refl _) (quietSeg_of_no_ff _ hq2)
  simp only [List.append_nil] at e2
  have ht : (scanTables s.bytes hdr.dataLocation).2 =
      ([hdr.dataLocation + 2 + hdrBytes.length], []) := by
    unfold scanTables
    rw [hd, e1]
    simp only [scanBytes, if_true, toU32_add_toU32, List.nil_append]
    rw [e2]
    simp [scanBytes]
  have ht1 := congrArg Prod.fst ht
  have ht2 := congrArg Prod.snd ht
  simp only at ht1 ht2
  rw [scan_of_soc r c0 hdr s hh hm hs hnf h0 h1, ht1, ht2]
  simp
  omega

/-- Witness for C10: one byte ahead of the codestream, two header bytes, and
the stream cut off five bytes behind the first `FF 90`; grid 3 x 1. -/
theorem truncated_after_first_start_marker_witness :
    (scanForJpegBlockOffsets
        (sampleReader ([9] ++ ([0xff, 0x4f] ++ [1, 2] ++ [0xff, 0x90] ++ [1, 2, 3, 4, 5]))
          0 1 3 1) 0).1 = false ∧
    (scanForJpegBlockOffsets
        (sampleReader ([9] ++ ([0xff, 0x4f] ++ [1, 2] ++ [0xff, 0x90] ++ [1, 2, 3, 4, 5]))
          0 1 3 1) 0).2.theNitfBlockOffset = [1 + 2 + 2] ∧
    (scanForJpegBlockOffsets
        (sampleReader ([9] ++ ([0xff, 0x4f] ++ [1, 2] ++ [0xff, 0x90] ++ [1, 2, 3, 4, 5]))
          0 1 3 1) 0).2.theNitfBlockSize = [] :=
  truncated_after_first_start_marker
    (sampleReader ([9] ++ ([0xff, 0x4f] ++ [1, 2] ++ [0xff, 0x90] ++ [1, 2, 3, 4, 5])) 0 1 3 1)
    0 { dataLocation := 1, blocksPerRow := 3, blocksPerCol := 1 }
    { bytes := [9] ++ ([0xff, 0x4f] ++ [1, 2] ++ [0xff, 0x90] ++ [1, 2, 3, 4, 5]), pos := 0,
      eofbit := false, failbit := false, badbit := false, seekPastEnd := true }
    [9] [1, 2] [1, 2, 3, 4, 5] rfl rfl rfl rfl rfl rfl (by decide) (by decide)
/-! ## Claims about a well-formed codestream -/

theorem length_tileOffsets (tiles : List TilePart) (start : Nat) :
    (tileOffsets start tiles).length = tiles.length := by
  induction tiles generalizing start with
  | nil => rfl
  | cons t ts ih => simp [tileOffsets, ih]

theorem length_tileSizes (tiles : List TilePart) (carry : Nat) :
    (tileSizes carry tiles).length = tiles.length := by
  induction tiles generalizing carry with
  | nil => rfl
  | cons t ts ih => simp [tileSizes, ih]

/-- The list view of the loop on consecutive tile-parts with quiet header and
data bytes: one offset and one size per tile-part. -/
theorem scanBytes_tiles (tiles : List TilePart) :
    ∀ (pos carry : Nat) (offs szs : List Nat),
      (∀ t ∈ tiles, quietSeg t.hdr = true ∧ quietSeg t.data = true) →
      (scanBytes (tilesBytes tiles) pos (toU32 carry) offs szs).2 =
        (offs ++ tileOffsets pos tiles, szs ++ tileSizes carry tiles) := by
  induction tiles with
  | nil => intro pos carry offs szs _; simp [tilesBytes, scanBytes, tileOffsets, tileSizes]
  | cons t ts ih =>
    intro pos carry offs szs hq
    obtain ⟨hqh, hqd⟩ := hq t (by simp)
    have hqs : ∀ u ∈ ts, quietSeg u.hdr = true ∧ quietSeg u.data = true :=
      fun u hu => hq u (List.mem_cons_of_mem _ hu)
    have hbytes : tilesBytes (t :: ts) =
        0xff :: 0x90 :: (t.hdr ++ 0xff :: 0x93 :: (t.data ++ tilesBytes ts)) := by
      simp [tilesBytes, TilePart.bytes]
    have e1 := fun o z => scanBytes_quiet t.hdr.length t.hdr
      (0xff :: 0x93 :: (t.data ++ tilesBytes ts)) (pos + 2) (carry + 1 + 1) o z
      (Nat.le_refl _) hqh
    have e2 := fun p o z => scanBytes_quiet t.data.length t.data (tilesBytes ts) p 0 o z
      (Nat.le_refl _) hqd
    have e0 : (0 : Nat) = toU32 0 := rfl
    rw [hbytes]
    simp only [scanBytes, if_true, toU32_add_toU32]
    rw [e1]
    simp only [scanBytes, if_true, toU32_add_toU32]
    have h93 : ¬ ((0x93 : Byte) = 0x90) := by decide
    simp only [h93, if_false]
    rw [e0, e2, ih _ _ _ _ hqs]
    simp only [tileOffsets, tileSizes, TilePart.bytes, List.length_append, List.length_cons,
      List.length_nil, List.append_assoc, List.singleton_append, Nat.zero_add]
    congr 3
    · congr 1; omega
    · congr 1; omega

/-- C2, counterexample: the codestream `FF 4F`, one tile-part `FF 90 00 FF 93
00`, grid 1 x 1. The distance from the start marker to its terminator is 3
bytes, and the scan records the size 7. -/
theorem size_is_not_start_to_terminator :
    TilePart.startToTerminator { hdr := [0], data := [0] } = 3 ∧
    (scanForJpegBlockOffsets
        (sampleReader (codestream [] [{ hdr := [0], data := [0] }]) 0 0 1 1) 0).2.theNitfBlockSize
      = [7] := by
  decide

/-- C2, amended: for a codestream made of `FF 4F` at the data location, a main
header and N tile-parts `FF 90`, header bytes, `FF 93`, data bytes, in which
no run of header or data bytes holds `FF 90` or `FF 93` or ends in `FF`,
scanned with `rows * columns = N`: the scan returns true, both tables have N
entries, `offsets[i]` is the position of the i-th `FF 90`, `sizes[0]` is the
number of bytes from the data location through the end of the first `FF 93`,
and every later `sizes[i]` is the number of bytes from the end of the previous
`FF 93` through the end of the i-th (each size as an `ossim_uint32`). -/
theorem scan_of_codestream (r : Reader) (c0 : Byte) (hdr : ImageHeader) (s : IStream)
    (pre mainHdr : List Byte) (tiles : List TilePart)
    (hh : r.hdr = some hdr) (hm : r.theReadMode = ReadMode.READ_JPEG_BLOCK)
    (hs : r.theFileStr = some s) (hnf : s.fail = false)
    (hb : s.bytes = pre ++ codestream mainHdr tiles)
    (hpre : pre.length = hdr.dataLocation)
    (hqm : quietSeg mainHdr = true)
    (hqt : ∀ t ∈ tiles, quietSeg t.hdr = true ∧ quietSeg t.data = true)
    (hn : toU32 (hdr.blocksPerRow * hdr.blocksPerCol) = tiles.length) :
    (scanForJpegBlockOffsets r c0).1 = true ∧
    (scanForJpegBlockOffsets r c0).2.theNitfBlockOffset.length = tiles.length ∧
    (scanForJpegBlockOffsets r c0).2.theNitfBlockSize.length = tiles.length ∧
    (scanForJpegBlockOffsets r c0).2.theNitfBlockOffset
        = tileOffsets (hdr.dataLocation + 2 + mainHdr.length) tiles ∧
    (scanForJpegBlockOffsets r c0).2.theNitfBlockSize
        = tileSizes (2 + mainHdr.length) tiles := by
  have hb2 : s.bytes = pre ++ 0xff :: 0x4f :: (mainHdr ++ tilesBytes tiles) := by
    rw [hb]; simp [codestream]
  have h0 : s.bytes[hdr.dataLocation]? = some 0xff := by
    rw [hb2, ← hpre]; exact getElem?_at_length _ _ _
  have h1 : s.bytes[hdr.dataLocation + 1]? = some 0x4f := by
    rw [hb2, ← hpre]; exact getElem?_at_length_succ _ _ _ _
  have hd : s.bytes.drop (hdr.dataLocation + 2) = mainHdr ++ tilesBytes tiles := by
    rw [hb2, ← hpre]; exact drop_length_add_two _ _ _ _
  have e1 : scanBytes (mainHdr ++ tilesBytes tiles) (hdr.dataLocation + 2) 2 [] [] =
      scanBytes (tilesBytes tiles) (hdr.dataLocation + 2 + mainHdr.length)
        (toU32 (2 + mainHdr.length)) [] [] :=
    scanBytes_quiet mainHdr.length mainHdr (tilesBytes tiles)
      (hdr.dataLocation + 2) 2 [] [] (Nat.le_refl _) hqm
  have ht : (scanTables s.bytes hdr.dataLocation).2 =
      (tileOffsets (hdr.dataLocation + 2 + mainHdr.length) tiles,
        tileSizes (2 + mainHdr.length) tiles) := by
    unfold scanTables
    rw [hd, e1, scanBytes_tiles tiles _ _ _ _ hqt]
    simp
  have ht1 := congrArg Prod.fst ht
  have ht2 := congrArg Prod.snd ht
  simp only at ht1 ht2
  rw [scan_of_soc r c0 hdr s hh hm hs hnf h0 h1, ht1, ht2]
  simp [length_tileOffsets, length_tileSizes, hn]

/-- Witness for C2 (amended): three bytes ahead of the codestream, a main
header of two bytes and two tile-parts whose data bytes hold `FF 00`. -/
theorem scan_of_codestream_witness :
    (scanForJpegBlockOffsets
        (sampleReader ([1, 2, 3] ++ codestream [0x51, 0x52]
            [{ hdr := [1], data := [0xff, 0] }, { hdr := [2, 3], data := [4] }]) 0 3 2 1) 0).1
      = true ∧
    (scanForJpegBlockOffsets
        (sampleReader ([1, 2, 3] ++ codestream [0x51, 0x52]
            [{ hdr := [1], data := [0xff, 0] }, { hdr := [2, 3], data := [4] }]) 0 3 2 1)
        0).2.theNitfBlockOffset.length = 2 ∧
    (scanForJpegBlockOffsets
        (sampleReader ([1, 2, 3] ++ codestream [0x51, 0x52]
            [{ hdr := [1], data := [0xff, 0] }, { hdr := [2, 3], data := [4] }]) 0 3 2 1)
        0).2.theNitfBlockSize.length = 2 ∧
    (scanForJpegBlockOffsets
        (sampleReader ([1, 2, 3] ++ codestream [0x51, 0x52]
            [{ hdr := [1], data := [0xff, 0] }, { hdr := [2, 3], data := [4] }]) 0 3 2 1)
        0).2.theNitfBlockOffset
      = tileOffsets (3 + 2 + 2)
          [{ hdr := [1], data := [0xff, 0] }, { hdr := [2, 3], data := [4] }] ∧
    (scanForJpegBlockOffsets
        (sampleReader ([1, 2, 3] ++ codestream [0x51, 0x52]
            [{ hdr := [1], data := [0xff, 0] }, { hdr := [2, 3], data := [4] }]) 0 3 2 1)
        0).2.theNitfBlockSize
      = tileSizes (2 + 2)
          [{ hdr := [1], data := [0xff, 0] }, { hdr := [2, 3], data := [4] }] :=
  scan_of_codestream
    (sampleReader ([1, 2, 3] ++ codestream [0x51, 0x52]
      [{ hdr := [1], data := [0xff, 0] }, { hdr := [2, 3], data := [4] }]) 0 3 2 1)
    0 { dataLocation := 3, blocksPerRow := 2, blocksPerCol := 1 }
    { bytes := [1, 2, 3] ++ codestream [0x51, 0x52]
        [{ hdr := [1], data := [0xff, 0] }, { hdr := [2, 3], data := [4] }],
      pos := 0, eofbit := false, failbit := false, badbit := false, seekPastEnd := true }
    [1, 2, 3] [0x51, 0x52]
    [{ hdr := [1], data := [0xff, 0] }, { hdr := [2, 3], data := [4] }]
    rfl rfl rfl rfl rfl rfl (by decide) (by decide) (by decide)

/-- C4, the scan at a failing input: in the codestream `FF 4F 12 FF`, `FF 90
00 FF 93 00` (a main header that ends in `FF`, then one tile-part) the bytes
`FF 90` stand at position 4, at or behind data location + 2, and the scan
records no offset at all: it took the `FF` of the marker for the byte that
follows the header's `FF`. -/
theorem scan_misses_start_marker_after_ff :
    (codestream [0x12, 0xff] [{ hdr := [0], data := [0] }])[4]? = some 0xff ∧
    (codestream [0x12, 0xff] [{ hdr := [0], data := [0] }])[5]? = some 0x90 ∧
    0 + 2 ≤ 4 ∧
    (scanForJpegBlockOffsets
        (sampleReader (codestream [0x12, 0xff] [{ hdr := [0], data := [0] }]) 0 0 1 1)
        0).2.theNitfBlockOffset = [] := by
  decide

/-! ## Further facts about the list view -/

theorem scanBytes_acc_gen (l : List Byte) (pos bs : Nat) (offs szs : List Nat) :
    ∀ o2 s2 : List Nat,
      (scanBytes l pos bs (o2 ++ offs) (s2 ++ szs)).2 =
        (o2 ++ (scanBytes l pos bs offs szs).2.1, s2 ++ (scanBytes l pos bs offs szs).2.2) := by
  induction l, pos, bs, offs, szs using scanBytes.induct with
  | case1 pos bs offs szs => intro o2 s2; simp [scanBytes]
  | case2 b pos bs offs szs => intro o2 s2; simp [scanBytes]
  | case3 rest pos bs offs szs ih =>
    intro o2 s2
    simp only [scanBytes, if_true, List.append_assoc]
    exact ih o2 s2
  | case4 rest pos bs offs szs hne ih =>
    intro o2 s2
    simp only [scanBytes, hne, if_true, if_false, List.append_assoc]
    exact ih o2 s2
  | case5 c rest pos bs offs szs hc h93 ih =>
    intro o2 s2
    simp only [scanBytes, hc, h93, if_true, if_false]
    exact ih o2 s2
  | case6 b c rest pos bs offs szs hb ih =>
    intro o2 s2
    simp only [scanBytes, hb, if_false]
    exact ih o2 s2

/-- The tables the list view returns are the tables it was given, followed by
the entries it records on its own. -/
theorem scanBytes_acc (l : List Byte) (pos bs : Nat) (offs szs : List Nat) :
    (scanBytes l pos bs offs szs).2 =
      (offs ++ (scanBytes l pos bs [] []).2.1, szs ++ (scanBytes l pos bs [] []).2.2) := by
  have := scanBytes_acc_gen l pos bs [] [] offs szs
  simpa using this

theorem scanBytes_short (l : List Byte) (h : l.length ≤ 1) (pos bs : Nat)
    (offs szs : List Nat) : (scanBytes l pos bs offs szs).2 = (offs, szs) := by
  match l, h with
  | [], _ => simp [scanBytes]
  | [_], _ => simp [scanBytes]
  | _ :: _ :: _, h => simp at h

/-- The list view on the first `k` bytes records an initial part of what it
records on all the bytes. -/
theorem scanBytes_take (l : List Byte) (pos bs : Nat) (offs szs : List Nat) :
    ∀ k : Nat, ∃ o2 s2 : List Nat,
      (scanBytes l pos bs offs szs).2 =
        ((scanBytes (l.take k) pos bs offs szs).2.1 ++ o2,
         (scanBytes (l.take k) pos bs offs szs).2.2 ++ s2) := by
  have short : ∀ (L : List Byte) (k : Nat) (pos bs : Nat) (offs szs : List Nat), k ≤ 1 →
      ∃ o2 s2 : List Nat,
        (scanBytes L pos bs offs szs).2 =
          ((scanBytes (L.take k) pos bs offs szs).2.1 ++ o2,
           (scanBytes (L.take k) pos bs offs szs).2.2 ++ s2) := by
    intro L k pos bs offs szs hk
    have e := scanBytes_short (L.take k) (by simp; omega) pos bs offs szs
    refine ⟨(scanBytes L pos bs [] []).2.1, (scanBytes L pos bs [] []).2.2, ?_⟩
    rw [e]; exact scanBytes_acc L pos bs offs szs
  induction l, pos, bs, offs, szs using scanBytes.induct with
  | case1 pos bs offs szs => intro k; exact ⟨[], [], by simp [scanBytes]⟩
  | case2 b pos bs offs szs =>
    intro k
    cases k with
    | zero => exact ⟨[], [], by simp [scanBytes]⟩
    | succ k => exact ⟨[], [], by simp [scanBytes]⟩
  | case3 rest pos bs offs szs ih =>
    intro k
    match k with
    | 0 => exact short _ 0 _ _ _ _ (by omega)
    | 1 => exact short _ 1 _ _ _ _ (by omega)
    | k + 2 =>
      obtain ⟨o2, s2, h⟩ := ih k
      exact ⟨o2, s2, by simpa only [List.take_succ_cons, scanBytes, if_true] using h⟩
  | case4 rest pos bs offs szs hne ih =>
    intro k
    match k with
    | 0 => exact short _ 0 _ _ _ _ (by omega)
    | 1 => exact short _ 1 _ _ _ _ (by omega)
    | k + 2 =>
      obtain ⟨o2, s2, h⟩ := ih k
      exact ⟨o2, s2, by simpa only [List.take_succ_cons, scanBytes, hne, if_true, if_false] using h⟩
  | case5 c rest pos bs offs szs hc h93 ih =>
    intro k
    match k with
    | 0 => exact short _ 0 _ _ _ _ (by omega)
    | 1 => exact short _ 1 _ _ _ _ (by omega)
    | k + 2 =>
      obtain ⟨o2, s2, h⟩ := ih k
      exact ⟨o2, s2, by
        simpa only [List.take_succ_cons, scanBytes, hc, h93, if_true, if_false] using h⟩
  | case6 b c rest pos bs offs szs hb ih =>
    intro k
    match k with
    | 0 => exact short _ 0 _ _ _ _ (by omega)
    | k + 1 =>
      obtain ⟨o2, s2, h⟩ := ih k
      refine ⟨o2, s2, ?_⟩
      rw [List.take_succ_cons, scanBytes_cons_ne _ _ _ _ _ _ hb,
        scanBytes_cons_ne _ _ _ _ _ _ hb]
      exact h

/-! ## Claims about truncated streams, early terminators and the order of offsets -/

/-- C12: a stream that begins with `FF 4F` at the data location and is cut at
any position `k >= dataOffset + 2` (also between an `FF` and the byte behind
it) is still scanned to its end, and the offsets and sizes tables of the cut
stream are initial parts of the tables of the whole stream. -/
theorem truncated_scan_tables_are_initial_parts (r : Reader) (c0 : Byte) (hdr : ImageHeader)
    (s : IStream) (k : Nat)
    (hh : r.hdr = some hdr) (hm : r.theReadMode = ReadMode.READ_JPEG_BLOCK)
    (hs : r.theFileStr = some s) (hnf : s.fail = false)
    (h0 : s.bytes[hdr.dataLocation]? = some 0xff)
    (h1 : s.bytes[hdr.dataLocation + 1]? = some 0x4f)
    (hk : hdr.dataLocation + 2 ≤ k) :
    (scanForJpegBlockOffsets
        { r with theFileStr := some { s with bytes := s.bytes.take k } } c0).2.theFileStr
      = some (atEnd { s with bytes := s.bytes.take k }) ∧
    (scanForJpegBlockOffsets
        { r with theFileStr := some { s with bytes := s.bytes.take k } } c0).2.theNitfBlockOffset
      <+: (scanForJpegBlockOffsets r c0).2.theNitfBlockOffset ∧
    (scanForJpegBlockOffsets
        { r with theFileStr := some { s with bytes := s.bytes.take k } } c0).2.theNitfBlockSize
      <+: (scanForJpegBlockOffsets r c0).2.theNitfBlockSize := by
  have t0 : (s.bytes.take k)[hdr.dataLocation]? = some 0xff := by
    rw [List.getElem?_take_of_lt (by omega)]; exact h0
  have t1 : (s.bytes.take k)[hdr.dataLocation + 1]? = some 0x4f := by
    rw [List.getElem?_take_of_lt (by omega)]; exact h1
  rw [scan_of_soc r c0 hdr s hh hm hs hnf h0 h1]
  rw [scan_of_soc { r with theFileStr := some { s with bytes := s.bytes.take k } } c0 hdr
    { s with bytes := s.bytes.take k } hh hm rfl (by simpa [IStream.fail] using hnf) t0 t1]
  obtain ⟨o2, s2, h⟩ := scanBytes_take (s.bytes.drop (hdr.dataLocation + 2))
    (hdr.dataLocation + 2) 2 [] [] (k - (hdr.dataLocation + 2))
  have ho := congrArg Prod.fst h
  have hz := congrArg Prod.snd h
  simp only at ho hz
  refine ⟨rfl, ⟨o2, ?_⟩, ⟨s2, ?_⟩⟩
  · simp only [scanTables, List.drop_take]; exact ho.symm
  · simp only [scanTables, List.drop_take]; exact hz.symm

/-- Witness for C12: the stream `FF 4F FF 90 00 FF 93 00`, cut behind its
sixth byte, between the `FF` of the terminator and its `93`. -/
theorem truncated_scan_tables_are_initial_parts_witness :
    (scanForJpegBlockOffsets
        { sampleReader [0xff, 0x4f, 0xff, 0x90, 0, 0xff, 0x93, 0] 0 0 1 1 with
          theFileStr := some
            { bytes := ([0xff, 0x4f, 0xff, 0x90, 0, 0xff, 0x93, 0] : List Byte).take 6, pos := 0,
              eofbit := false, failbit := false, badbit := false, seekPastEnd := true } }
        0).2.theFileStr
      = some (atEnd
          { bytes := ([0xff, 0x4f, 0xff, 0x90, 0, 0xff, 0x93, 0] : List Byte).take 6, pos := 0,
            eofbit := false, failbit := false, badbit := false, seekPastEnd := true }) ∧
    (scanForJpegBlockOffsets
        { sampleReader [0xff, 0x4f, 0xff, 0x90, 0, 0xff, 0x93, 0] 0 0 1 1 with
          theFileStr := some
            { bytes := ([0xff, 0x4f, 0xff, 0x90, 0, 0xff, 0x93, 0] : List Byte).take 6, pos := 0,
              eofbit := false, failbit := false, badbit := false, seekPastEnd := true } }
        0).2.theNitfBlockOffset
      <+: (scanForJpegBlockOffsets
            (sampleReader [0xff, 0x4f, 0xff, 0x90, 0, 0xff, 0x93, 0] 0 0 1 1)
            0).2.theNitfBlockOffset ∧
    (scanForJpegBlockOffsets
        { sampleReader [0xff, 0x4f, 0xff, 0x90, 0, 0xff, 0x93, 0] 0 0 1 1 with
          theFileStr := some
            { bytes := ([0xff, 0x4f, 0xff, 0x90, 0, 0xff, 0x93, 0] : List Byte).take 6, pos := 0,
              eofbit := false, failbit := false, badbit := false, seekPastEnd := true } }
        0).2.theNitfBlockSize
      <+: (scanForJpegBlockOffsets
            (sampleReader [0xff, 0x4f, 0xff, 0x90, 0, 0xff, 0x93, 0] 0 0 1 1)
            0).2.theNitfBlockSize :=
  truncated_scan_tables_are_initial_parts
    (sampleReader [0xff, 0x4f, 0xff, 0x90, 0, 0xff, 0x93, 0] 0 0 1 1) 0
    { dataLocation := 0, blocksPerRow := 1, blocksPerCol := 1 }
    { bytes := [0xff, 0x4f, 0xff, 0x90, 0, 0xff, 0x93, 0], pos := 0, eofbit := false,
      failbit := false, badbit := false, seekPastEnd := true }
    6 rfl rfl rfl rfl (by decide) (by decide) (by decide)

/-- C13, counterexample: in the stream `FF 4F FF 93 00` a terminator stands
behind the start-of-codestream bytes and no start marker occurs at all; the
scan records the size 4 while the offsets table is empty. -/
theorem size_recorded_before_any_start_marker :
    (scanForJpegBlockOffsets (sampleReader [0xff, 0x4f, 0xff, 0x93, 0] 0 0 1 1)
        0).2.theNitfBlockOffset = [] ∧
    (scanForJpegBlockOffsets (sampleReader [0xff, 0x4f, 0xff, 0x93, 0] 0 0 1 1)
        0).2.theNitfBlockSize = [4] := by
  decide

/-- C13, amended: the scan keeps no record of whether a start marker has been
seen. In a stream made of `FF 4F` at the data location, a quiet run of bytes,
a terminator `FF 93` and another quiet run of bytes (so no `FF 90` anywhere),
the terminator does add an entry to the sizes table: the scan ends with an
empty offsets table and the one size that counts the bytes from the data
location through the terminator. -/
theorem terminator_before_start_is_recorded (r : Reader) (c0 : Byte) (hdr : ImageHeader)
    (s : IStream) (pre lead trail : List Byte)
    (hh : r.hdr = some hdr) (hm : r.theReadMode = ReadMode.READ_JPEG_BLOCK)
    (hs : r.theFileStr = some s) (hnf : s.fail = false)
    (hb : s.bytes = pre ++ ([0xff, 0x4f] ++ lead ++ [0xff, 0x93] ++ trail))
    (hpre : pre.length = hdr.dataLocation)
    (hq1 : quietSeg lead = true) (hq2 : quietSeg trail = true) :
    (scanForJpegBlockOffsets r c0).2.theNitfBlockOffset = [] ∧
    (scanForJpegBlockOffsets r c0).2.theNitfBlockSize = [toU32 (2 + lead.length + 2)] := by
  have hb2 : s.bytes = pre ++ 0xff :: 0x4f :: (lead ++ 0xff :: 0x93 :: trail) := by
    rw [hb]; simp
  have h0 : s.bytes[hdr.dataLocation]? = some 0xff := by
    rw [hb2, ← hpre]; exact getElem?_at_length _ _ _
  have h1 : s.bytes[hdr.dataLocation + 1]? = some 0x4f := by
    rw [hb2, ← hpre]; exact getElem?_at_length_succ _ _ _ _
  have hd : s.bytes.drop (hdr.dataLocation + 2) = lead ++ 0xff :: 0x93 :: trail := by
    rw [hb2, ← hpre]; exact drop_length_add_two _ _ _ _
  have e1 : scanBytes (lead ++ 0xff :: 0x93 :: trail) (hdr.dataLocation + 2) 2 [] [] =
      scanBytes (0xff :: 0x93 :: trail) (hdr.dataLocation + 2 + lead.length)
        (toU32 (2 + lead.length)) [] [] :=
    scanBytes_quiet lead.length lead (0xff :: 0x93 :: trail)
      (hdr.dataLocation + 2) 2 [] [] (Nat.le_refl _) hq1
  have e2 := fun p z => scanBytes_quiet trail.length trail [] p 0 [] z (Nat.le_refl _) hq2
  simp only [List.append_nil] at e2
  have h93 : ¬ ((0x93 : Byte) = 0x90) := by decide
  have e0 : (0 : Nat) = toU32 0 := rfl
  have ht : (scanTables s.bytes hdr.dataLocation).2 =
      ([], [toU32 (2 + lead.length + 2)]) := by
    unfold scanTables
    rw [hd, e1]
    simp only [scanBytes, if_true, h93, if_false, toU32_add_toU32, List.nil_append]
    rw [e0, e2]
    simp [scanBytes]
  have ht1 := congrArg Prod.fst ht
  have ht2 := congrArg Prod.snd ht
  simp only at ht1 ht2
  rw [scan_of_soc r c0 hdr s hh hm hs hnf h0 h1, ht1, ht2]
  exact ⟨rfl, rfl⟩

/-- Witness for C13 (amended): two bytes ahead of the codestream, a terminator
behind three quiet bytes, and two trailing bytes. -/
theorem terminator_before_start_is_recorded_witness :
    (scanForJpegBlockOffsets
        (sampleReader ([8, 9] ++ ([0xff, 0x4f] ++ [1, 2, 3] ++ [0xff, 0x93] ++ [4, 5])) 0 2 1 1)
        0).2.theNitfBlockOffset = [] ∧
    (scanForJpegBlockOffsets
        (sampleReader ([8, 9] ++ ([0xff, 0x4f] ++ [1, 2, 3] ++ [0xff, 0x93] ++ [4, 5])) 0 2 1 1)
        0).2.theNitfBlockSize = [toU32 (2 + 3 + 2)] :=
  terminator_before_start_is_recorded
    (sampleReader ([8, 9] ++ ([0xff, 0x4f] ++ [1, 2, 3] ++ [0xff, 0x93] ++ [4, 5])) 0 2 1 1) 0
    { dataLocation := 2, blocksPerRow := 1, blocksPerCol := 1 }
    { bytes := [8, 9] ++ ([0xff, 0x4f] ++ [1, 2, 3] ++ [0xff, 0x93] ++ [4, 5]), pos := 0,
      eofbit := false, failbit := false, badbit := false, seekPastEnd := true }
    [8, 9] [1, 2, 3] [4, 5] rfl rfl rfl rfl rfl rfl (by decide) (by decide)

/-- Offsets the list view records lie at or behind the position where it
starts and are at least two bytes apart. -/
theorem scanBytes_offsets_spaced (l : List Byte) (pos bs : Nat) (offs szs : List Nat) :
    List.Pairwise (fun a b => a + 2 ≤ b) offs → (∀ o ∈ offs, o + 2 ≤ pos) →
    List.Pairwise (fun a b => a + 2 ≤ b) (scanBytes l pos bs offs szs).2.1 := by
  induction l, pos, bs, offs, szs using scanBytes.induct with
  | case1 pos bs offs szs => intro h _; simpa [scanBytes] using h
  | case2 b pos bs offs szs => intro h _; simpa [scanBytes] using h
  | case3 rest pos bs offs szs ih =>
    intro h hlt
    simp only [scanBytes, if_true]
    apply ih
    · rw [List.pairwise_append]
      refine ⟨h, List.pairwise_singleton _ _, ?_⟩
      intro a ha b hb
      simp at hb; subst hb; exact hlt a ha
    · intro o ho
      rcases List.mem_append.mp ho with ho | ho
      · have := hlt o ho; omega
      · simp at ho; subst ho; omega
  | case4 rest pos bs offs szs hne ih =>
    intro h hlt
    simp only [scanBytes, hne, if_true, if_false]
    exact ih h (fun o ho => by have := hlt o ho; omega)
  | case5 c rest pos bs offs szs hc h93 ih =>
    intro h hlt
    simp only [scanBytes, hc, h93, if_true, if_false]
    exact ih h (fun o ho => by have := hlt o ho; omega)
  | case6 b c rest pos bs offs szs hb ih =>
    intro h hlt
    simp only [scanBytes, hb, if_false]
    exact ih h (fun o ho => by have := hlt o ho; omega)

/-- C18: the offsets table the scan produces is strictly increasing with
entries at least two bytes apart: each entry plus 2 is at most every later
entry, in particular `offsets[i] + 2 <= offsets[i+1]`. -/
theorem offsets_increasing_two_apart (r : Reader) (c0 : Byte) (hdr : ImageHeader)
    (s : IStream) (hh : r.hdr = some hdr) (hm : r.theReadMode = ReadMode.READ_JPEG_BLOCK)
    (hs : r.theFileStr = some s) :
    (∀ i a b, (scanForJpegBlockOffsets r c0).2.theNitfBlockOffset[i]? = some a →
        (scanForJpegBlockOffsets r c0).2.theNitfBlockOffset[i + 1]? = some b → a + 2 ≤ b) ∧
    List.Pairwise (fun a b => a + 2 ≤ b) (scanForJpegBlockOffsets r c0).2.theNitfBlockOffset := by
  have hp : List.Pairwise (fun a b => a + 2 ≤ b)
      (scanForJpegBlockOffsets r c0).2.theNitfBlockOffset := by
    by_cases hsoc : s.fail = false ∧ s.bytes[hdr.dataLocation]? = some 0xff ∧
        s.bytes[hdr.dataLocation + 1]? = some 0x4f
    · obtain ⟨hnf, h0, h1⟩ := hsoc
      rw [scan_of_soc r c0 hdr s hh hm hs hnf h0 h1]
      exact scanBytes_offsets_spaced _ _ _ _ _ List.Pairwise.nil (by simp)
    · obtain ⟨s2, he, _, _⟩ := scan_early r c0 hdr s hh hm hs hsoc
      rw [he]; exact List.Pairwise.nil
  refine ⟨?_, hp⟩
  intro i a b ha hb
  rw [List.pairwise_iff_getElem] at hp
  have hi := getElem?_lt _ _ _ ha
  have hj := getElem?_lt _ _ _ hb
  have := hp i (i + 1) hi hj (by omega)
  rw [List.getElem?_eq_getElem hi] at ha
  rw [List.getElem?_eq_getElem hj] at hb
  cases ha; cases hb
  exact this

/-- Witness for C18: the two start markers of a two-tile stream, at positions
2 and 9. -/
theorem offsets_increasing_two_apart_witness :
    (∀ i a b,
        (scanForJpegBlockOffsets
          (sampleReader [0xff, 0x4f, 0xff, 0x90, 0, 0xff, 0x93, 0, 0, 0xff, 0x90, 0, 0xff, 0x93]
            0 0 2 1) 0).2.theNitfBlockOffset[i]? = some a →
        (scanForJpegBlockOffsets
          (sampleReader [0xff, 0x4f, 0xff, 0x90, 0, 0xff, 0x93, 0, 0, 0xff, 0x90, 0, 0xff, 0x93]
            0 0 2 1) 0).2.theNitfBlockOffset[i + 1]? = some b → a + 2 ≤ b) ∧
    List.Pairwise (fun a b => a + 2 ≤ b)
      (scanForJpegBlockOffsets
        (sampleReader [0xff, 0x4f, 0xff, 0x90, 0, 0xff, 0x93, 0, 0, 0xff, 0x90, 0, 0xff, 0x93]
          0 0 2 1) 0).2.theNitfBlockOffset :=
  offsets_increasing_two_apart
    (sampleReader [0xff, 0x4f, 0xff, 0x90, 0, 0xff, 0x93, 0, 0, 0xff, 0x90, 0, 0xff, 0x93]
      0 0 2 1) 0
    { dataLocation := 0, blocksPerRow := 2, blocksPerCol := 1 }
    { bytes := [0xff, 0x4f, 0xff, 0x90, 0, 0xff, 0x93, 0, 0, 0xff, 0x90, 0, 0xff, 0x93],
      pos := 0, eofbit := false, failbit := false, badbit := false, seekPastEnd := true }
    rfl rfl rfl

/-- C19: called with no current image header, with a read mode other than
`READ_JPEG_BLOCK`, or with no stream, the scan returns false and leaves the
reader as it was: the offsets table, the sizes table and the stream with its
get pointer keep their values, stale entries included. -/
theorem guard_failure_changes_nothing (r : Reader) (c0 : Byte)
    (h : r.hdr = none ∨ r.theReadMode ≠ ReadMode.READ_JPEG_BLOCK ∨ r.theFileStr = none) :
    (scanForJpegBlockOffsets r c0).1 = false ∧
    (scanForJpegBlockOffsets r c0).2.theNitfBlockOffset = r.theNitfBlockOffset ∧
    (scanForJpegBlockOffsets r c0).2.theNitfBlockSize = r.theNitfBlockSize ∧
    (scanForJpegBlockOffsets r c0).2.theFileStr = r.theFileStr ∧
    (scanForJpegBlockOffsets r c0).2 = r := by
  have hg : r.hdr = none ∨ r.theFileStr = none ∨ r.theReadMode ≠ ReadMode.READ_JPEG_BLOCK := by
    rcases h with h | h | h
    · exact Or.inl h
    · exact Or.inr (Or.inr h)
    · exact Or.inr (Or.inl h)
  rw [scan_guard r c0 hg]
  exact ⟨rfl, rfl, rfl, rfl, rfl⟩

/-- Witness for C19: a reader in read mode `READ_MODE_UNKNOWN` whose tables
hold the stale entries 7 and 8 and whose get pointer is at 3. -/
theorem guard_failure_changes_nothing_witness :
    (scanForJpegBlockOffsets
        { sampleReader [0xff, 0x4f, 0xff, 0x90, 0, 0xff, 0x93, 0] 3 0 1 1 with
          theReadMode := ReadMode.READ_MODE_UNKNOWN } 0).1 = false ∧
    (scanForJpegBlockOffsets
        { sampleReader [0xff, 0x4f, 0xff, 0x90, 0, 0xff, 0x93, 0] 3 0 1 1 with
          theReadMode := ReadMode.READ_MODE_UNKNOWN } 0).2.theNitfBlockOffset = [7] ∧
    (scanForJpegBlockOffsets
        { sampleReader [0xff, 0x4f, 0xff, 0x90, 0, 0xff, 0x93, 0] 3 0 1 1 with
          theReadMode := ReadMode.READ_MODE_UNKNOWN } 0).2.theNitfBlockSize = [8] ∧
    (scanForJpegBlockOffsets
        { sampleReader [0xff, 0x4f, 0xff, 0x90, 0, 0xff, 0x93, 0] 3 0 1 1 with
          theReadMode := ReadMode.READ_MODE_UNKNOWN } 0).2.theFileStr
      = (sampleReader [0xff, 0x4f, 0xff, 0x90, 0, 0xff, 0x93, 0] 3 0 1 1).theFileStr ∧
    (scanForJpegBlockOffsets
        { sampleReader [0xff, 0x4f, 0xff, 0x90, 0, 0xff, 0x93, 0] 3 0 1 1 with
          theReadMode := ReadMode.READ_MODE_UNKNOWN } 0).2
      = { sampleReader [0xff, 0x4f, 0xff, 0x90, 0, 0xff, 0x93, 0] 3 0 1 1 with
          theReadMode := ReadMode.READ_MODE_UNKNOWN } :=
  guard_failure_changes_nothing
    { sampleReader [0xff, 0x4f, 0xff, 0x90, 0, 0xff, 0x93, 0] 3 0 1 1 with
      theReadMode := ReadMode.READ_MODE_UNKNOWN } 0 (Or.inr (Or.inl (by decide)))

/-! ## Claims about the compressed buffer and the block rectangle -/

theorem allBlockSizesEqual_iff (size : Nat) (l : List Nat) :
    allBlockSizesEqual size l = true ↔ ∀ x ∈ l, x = size := by
  induction l with
  | nil => simp [allBlockSizesEqual]
  | cons x rest ih =>
    by_cases hx : x = size
    · simp [allBlockSizesEqual, hx, ih]
    · simp [allBlockSizesEqual, hx]

theorem length_resizeBuf (buf : List Byte) (n : Nat) : (resizeBuf buf n).length = n := by
  simp [resizeBuf]; omega

/-- C15: after `initializeCompressedBuf` the buffer has length `s` when the
sizes table is non-empty and every entry equals `s`; the buffer is empty when
the table is empty, and when it holds two different entries. -/
theorem compressed_buf_sized_from_table (r : Reader) :
    (∀ s : Nat, r.theNitfBlockSize ≠ [] → (∀ x ∈ r.theNitfBlockSize, x = s) →
        (initializeCompressedBuf r).theCompressedBuf.length = s) ∧
    (r.theNitfBlockSize = [] → (initializeCompressedBuf r).theCompressedBuf = []) ∧
    (∀ a b : Nat, a ∈ r.theNitfBlockSize → b ∈ r.theNitfBlockSize → a ≠ b →
        (initializeCompressedBuf r).theCompressedBuf = []) := by
  refine ⟨?_, ?_, ?_⟩
  · intro s hne hall
    cases hsz : r.theNitfBlockSize with
    | nil => exact absurd hsz hne
    | cons size rest =>
      rw [hsz] at hall
      have h1 : size = s := hall size (by simp)
      subst h1
      have h2 : allBlockSizesEqual size rest = true :=
        (allBlockSizesEqual_iff size rest).2
          (fun x hx => hall x (List.mem_cons_of_mem _ hx))
      simp [initializeCompressedBuf, hsz, h2, length_resizeBuf]
  · intro hsz
    simp [initializeCompressedBuf, hsz]
  · intro a b ha hb hab
    cases hsz : r.theNitfBlockSize with
    | nil => rw [hsz] at ha; simp at ha
    | cons size rest =>
      rw [hsz] at ha hb
      have h2 : allBlockSizesEqual size rest ≠ true := by
        intro h
        rw [allBlockSizesEqual_iff] at h
        have e : ∀ x ∈ size :: rest, x = size := by
          intro x hx
          rcases List.mem_cons.mp hx with hx | hx
          · exact hx
          · exact h x hx
        exact hab ((e a ha).trans (e b hb).symm)
      simp [initializeCompressedBuf, hsz, h2]

/-- Witness for C15: three blocks of 100 bytes give a buffer of 100 bytes; the
reader starts with a buffer of two bytes. -/
theorem compressed_buf_sized_from_table_witness :
    (initializeCompressedBuf
        { sampleReader [] 0 0 3 1 with
          theNitfBlockSize := [100, 100, 100], theCompressedBuf := [1, 2] }).theCompressedBuf.length
      = 100 :=
  (compressed_buf_sized_from_table
      { sampleReader [] 0 0 3 1 with
        theNitfBlockSize := [100, 100, 100], theCompressedBuf := [1, 2] }).1
    100 (by decide) (by decide)

theorem toU32_small (n : Nat) (h : n < 2 ^ 32) : toU32 n = n := by
  simp only [toU32]; exact Nat.mod_eq_of_lt h

theorem toU32_pred (m : Nat) (h1 : 1 ≤ m) (h2 : m ≤ 2 ^ 32) :
    toU32 (m + (2 ^ 32 - 1)) = m - 1 := by
  simp only [toU32]; omega

theorem i32ToU32_natCast (w : Nat) (h : w < 2 ^ 32) : i32ToU32 (w : Int) = w := by
  simp only [i32ToU32]; omega

theorem u32ToI32_small (n : Nat) (h : n < 2 ^ 31) : u32ToI32 n = (n : Int) := by
  have hm : n % 2 ^ 32 = n := Nat.mod_eq_of_lt (by omega)
  simp only [u32ToI32, hm, h, if_true]

/-- C16, counterexample: with 4 x 4 blocks and the pixel x = 2147483648 (so
that (x / 4 + 1) * 4 = 2147483652 still fits 32 unsigned bits), block column
536870912 starts at 2147483648, and the rectangle handed to the decoder has
the upper-left x coordinate -2147483648. -/
theorem block_rect_wraps_above_int32 :
    (2147483648 / 4 + 1) * 4 < 2 ^ 32 ∧
    (uncompressJpegBlock (sampleReader [0xff, 0x4f] 0 0 1 1) 2147483648 0).bind
        BlockAccess.decodeRect
      = some { ul := { x := -2147483648, y := 0 }, lr := { x := -2147483645, y := 3 } } := by
  decide

/-- C16, amended: for every pixel (x, y) given as `ossim_uint32` and positive
block width `w` and height `h`, with (x / w + 1) * w and (y / h + 1) * h at
most 2^31 (so that every corner fits the signed 32-bit coordinates of an
`ossimIpt`), the rectangle computed from blockX = x / w and blockY = y / h has
upper-left (blockX * w, blockY * h) and lower-right ((blockX + 1) * w - 1,
(blockY + 1) * h - 1); it is `w` by `h` pixels, starts on the block grid and
contains (x, y). -/
theorem block_rect_of_pixel (r : Reader) (hdr : ImageHeader) (s : IStream) (x y w h : Nat)
    (hh : r.hdr = some hdr) (hs : r.theFileStr = some s)
    (hcx : r.theCacheSize.x = (w : Int)) (hcy : r.theCacheSize.y = (h : Int))
    (hw : 0 < w) (hv : 0 < h) (hx : x < 2 ^ 32) (hy : y < 2 ^ 32)
    (hbx : (x / w + 1) * w ≤ 2 ^ 31) (hby : (y / h + 1) * h ≤ 2 ^ 31) :
    (uncompressJpegBlock r x y).bind BlockAccess.decodeRect =
      some { ul := { x := ((x / w * w : Nat) : Int), y := ((y / h * h : Nat) : Int) },
             lr := { x := (((x / w + 1) * w - 1 : Nat) : Int),
                     y := (((y / h + 1) * h - 1 : Nat) : Int) } } ∧
    ((x / w + 1) * w - 1) - x / w * w + 1 = w ∧ ((y / h + 1) * h - 1) - y / h * h + 1 = h ∧
    (x / w * w) % w = 0 ∧ (y / h * h) % h = 0 ∧
    x / w * w ≤ x ∧ x ≤ (x / w + 1) * w - 1 ∧ y / h * h ≤ y ∧ y ≤ (y / h + 1) * h - 1 := by
  have ex : (x / w + 1) * w = x / w * w + w := by ring
  have ey : (y / h + 1) * h = y / h * h + h := by ring
  have lx : x / w * w ≤ x := Nat.div_mul_le_self x w
  have ly : y / h * h ≤ y := Nat.div_mul_le_self y h
  have ux : x < (x / w + 1) * w := by
    have := Nat.lt_succ_self (x / w)
    exact (Nat.div_lt_iff_lt_mul hw).mp this
  have uy : y < (y / h + 1) * h := by
    have := Nat.lt_succ_self (y / h)
    exact (Nat.div_lt_iff_lt_mul hv).mp this
  have hw32 : w < 2 ^ 32 := by
    have : w ≤ (x / w + 1) * w := by rw [ex]; omega
    omega
  have hv32 : h < 2 ^ 32 := by
    have : h ≤ (y / h + 1) * h := by rw [ey]; omega
    omega
  have bx1 : x / w + 1 ≤ (x / w + 1) * w := Nat.le_mul_of_pos_right _ hw
  have by1 : y / h + 1 ≤ (y / h + 1) * h := Nat.le_mul_of_pos_right _ hv
  refine ⟨?_, by omega, by omega, Nat.mul_mod_left _ _, Nat.mul_mod_left _ _, lx, by omega,
    ly, by omega⟩
  have e1 : i32ToU32 r.theCacheSize.x = w := by rw [hcx]; exact i32ToU32_natCast w hw32
  have e2 : i32ToU32 r.theCacheSize.y = h := by rw [hcy]; exact i32ToU32_natCast h hv32
  have hw0 : w ≠ 0 := by omega
  have hv0 : h ≠ 0 := by omega
  simp only [uncompressJpegBlock, hh, hs, e1, e2, hw0, hv0, or_self, if_false,
    toU32_small x hx, toU32_small y hy, Option.bind_some]
  rw [toU32_small (x / w * w) (by omega), toU32_small (y / h * h) (by omega),
    toU32_small (x / w + 1) (by omega), toU32_small (y / h + 1) (by omega),
    toU32_small ((x / w + 1) * w) (by omega), toU32_small ((y / h + 1) * h) (by omega),
    toU32_pred ((x / w + 1) * w) (by omega) (by omega),
    toU32_pred ((y / h + 1) * h) (by omega) (by omega),
    u32ToI32_small (x / w * w) (by omega), u32ToI32_small (y / h * h) (by omega),
    u32ToI32_small ((x / w + 1) * w - 1) (by omega),
    u32ToI32_small ((y / h + 1) * h - 1) (by omega)]
  rfl

/-- Witness for C16 (amended): pixel (9, 6) with 4 x 4 blocks lies in the
rectangle from (8, 4) to (11, 7). -/
theorem block_rect_of_pixel_witness :
    (uncompressJpegBlock (sampleReader [0xff, 0x4f] 0 0 3 3) 9 6).bind BlockAccess.decodeRect =
      some { ul := { x := ((9 / 4 * 4 : Nat) : Int), y := ((6 / 4 * 4 : Nat) : Int) },
             lr := { x := (((9 / 4 + 1) * 4 - 1 : Nat) : Int),
                     y := (((6 / 4 + 1) * 4 - 1 : Nat) : Int) } } ∧
    ((9 / 4 + 1) * 4 - 1) - 9 / 4 * 4 + 1 = 4 ∧ ((6 / 4 + 1) * 4 - 1) - 6 / 4 * 4 + 1 = 4 ∧
    (9 / 4 * 4) % 4 = 0 ∧ (6 / 4 * 4) % 4 = 0 ∧
    9 / 4 * 4 ≤ 9 ∧ 9 ≤ (9 / 4 + 1) * 4 - 1 ∧ 6 / 4 * 4 ≤ 6 ∧ 6 ≤ (6 / 4 + 1) * 4 - 1 :=
  block_rect_of_pixel (sampleReader [0xff, 0x4f] 0 0 3 3)
    { dataLocation := 0, blocksPerRow := 3, blocksPerCol := 3 }
    { bytes := [0xff, 0x4f], pos := 0, eofbit := false, failbit := false,
      badbit := false, seekPastEnd := true }
    9 6 4 4 rfl rfl rfl rfl (by decide) (by decide) (by decide) (by decide) (by decide)
    (by decide)

/-! ## Claims about the byte counter -/

/-- While the counter cannot wrap, the sizes the list view records are the
distances between consecutive recorded terminators, the first one measured
from `base`, the position at which the counter was last zero. -/
theorem scanBytes_sizes_gaps (l : List Byte) (pos : Nat) :
    ∀ bs base : Nat, base + bs = pos → pos + l.length - base < 2 ^ 32 →
      (scanBytes l pos bs [] []).2.2 = gaps base (termEnds l pos) := by
  induction l, pos using termEnds.induct with
  | case1 pos => intro bs base _ _; simp [scanBytes, termEnds, gaps]
  | case2 b pos => intro bs base _ _; simp [scanBytes, termEnds, gaps]
  | case3 rest pos ih =>
    intro bs base hb hl
    simp only [List.length_cons] at hl
    have hbs : toU32 (toU32 (bs + 1) + 1) = bs + 2 := by
      rw [toU32_add_toU32]; exact toU32_small _ (by omega)
    simp only [scanBytes, termEnds, if_true, hbs]
    rw [scanBytes_acc]
    simpa using ih (bs + 2) base (by omega) (by omega)
  | case4 rest pos hne ih =>
    intro bs base hb hl
    simp only [List.length_cons] at hl
    have hbs : toU32 (toU32 (bs + 1) + 1) = bs + 2 := by
      rw [toU32_add_toU32]; exact toU32_small _ (by omega)
    simp only [scanBytes, termEnds, hne, if_true, if_false, hbs]
    rw [scanBytes_acc]
    have := ih 0 (pos + 2) (by omega) (by omega)
    simp only [List.nil_append, gaps, this, List.singleton_append]
    congr 1
    omega
  | case5 c rest pos hc h93 ih =>
    intro bs base hb hl
    simp only [List.length_cons] at hl
    have hbs : toU32 (toU32 (bs + 1) + 1) = bs + 2 := by
      rw [toU32_add_toU32]; exact toU32_small _ (by omega)
    simp only [scanBytes, termEnds, hc, h93, if_true, if_false, hbs]
    exact ih (bs + 2) base (by omega) (by omega)
  | case6 b c rest pos hb ih =>
    intro bs base hbb hl
    simp only [List.length_cons] at hl
    have hbs : toU32 (bs + 1) = bs + 1 := toU32_small _ (by omega)
    simp only [scanBytes, termEnds, hb, if_false, hbs]
    exact ih (bs + 1) base (by omega) (by simp only [List.length_cons]; omega)

/-- Recorded terminator positions do not decrease and lie behind `base`. -/
theorem termEnds_chain (l : List Byte) (pos : Nat) :
    ∀ base : Nat, base ≤ pos → List.Chain (fun a b => a ≤ b) base (termEnds l pos) := by
  induction l, pos using termEnds.induct with
  | case1 pos => intro base _; simp [termEnds]
  | case2 b pos => intro base _; simp [termEnds]
  | case3 rest pos ih =>
    intro base hb; simp only [termEnds, if_true]; exact ih base (by omega)
  | case4 rest pos hne ih =>
    intro base hb
    simp only [termEnds, hne, if_true, if_false]
    exact List.Chain.cons (by omega) (ih (pos + 2) (Nat.le_refl _))
  | case5 c rest pos hc h93 ih =>
    intro base hb; simp only [termEnds, hc, h93, if_true, if_false]; exact ih base (by omega)
  | case6 b c rest pos hb ih =>
    intro base hbb; simp only [termEnds, hb, if_false]; exact ih base (by omega)

/-- Every recorded terminator position has `FF 93` right in front of it. -/
theorem termEnds_valid (bytes : List Byte) (lo : Nat) (l : List Byte) (pos : Nat) :
    bytes.drop pos = l → lo ≤ pos →
    ∀ e ∈ termEnds l pos,
      lo + 2 ≤ e ∧ bytes[e - 2]? = some 0xff ∧ bytes[e - 1]? = some 0x93 := by
  induction l, pos using termEnds.induct with
  | case1 pos => intro _ _ e he; simp [termEnds] at he
  | case2 b pos => intro _ _ e he; simp [termEnds] at he
  | case3 rest pos ih =>
    intro hd hlo
    obtain ⟨_, d1⟩ := drop_cons_getElem? _ _ _ _ hd
    obtain ⟨_, d2⟩ := drop_cons_getElem? _ _ _ _ d1
    simp only [termEnds, if_true]
    exact ih d2 (by omega)
  | case4 rest pos hne ih =>
    intro hd hlo
    obtain ⟨e0, d1⟩ := drop_cons_getElem? _ _ _ _ hd
    obtain ⟨e1, d2⟩ := drop_cons_getElem? _ _ _ _ d1
    simp only [termEnds, hne, if_true, if_false]
    intro e he
    rcases List.mem_cons.mp he with he | he
    · subst he
      exact ⟨by omega, by simpa using e0, by simpa using e1⟩
    · exact ih d2 (by omega) e he
  | case5 c rest pos hc h93 ih =>
    intro hd hlo
    obtain ⟨_, d1⟩ := drop_cons_getElem? _ _ _ _ hd
    obtain ⟨_, d2⟩ := drop_cons_getElem? _ _ _ _ d1
    simp only [termEnds, hc, h93, if_true, if_false]
    exact ih d2 (by omega)
  | case6 b c rest pos hb ih =>
    intro hd hlo
    obtain ⟨_, d1⟩ := drop_cons_getElem? _ _ _ _ hd
    simp only [termEnds, hb, if_false]
    exact ih d1 (by omega)

/-- The gaps of a non-decreasing list of positions add up to the distance
from the start to the last position. -/
theorem sum_gaps (es : List Nat) :
    ∀ start : Nat, List.Chain (fun a b => a ≤ b) start es →
      start ≤ es.getLastD start ∧ (gaps start es).sum = es.getLastD start - start := by
  induction es with
  | nil => intro start _; simp [gaps]
  | cons e es ih =>
    intro start hc
    rw [List.chain_cons] at hc
    obtain ⟨h1, h2⟩ := ih e hc.2
    have hl : (e :: es).getLastD start = es.getLastD e := by
      cases es <;> simp [List.getLastD]
    rw [hl]
    refine ⟨by omega, ?_⟩
    simp only [gaps, List.sum_cons, h2]
    omega

/-- C14: for a stream shorter than 2^32 bytes that begins with `FF 4F` at the
data location, `sizes[0]` is the number of bytes from the data location
through the second byte of the first recorded terminator, every later
`sizes[k]` is the number of bytes behind the previous recorded terminator
through the second byte of the k-th, and the sizes add up to the position
just behind the last recorded terminator minus the data location. The
recorded terminators are the positions `termEnds` lists, each with `FF 93`
right in front of it. -/
theorem sizes_count_bytes_between_terminators (r : Reader) (c0 : Byte) (hdr : ImageHeader)
    (s : IStream) (hh : r.hdr = some hdr) (hm : r.theReadMode = ReadMode.READ_JPEG_BLOCK)
    (hs : r.theFileStr = some s) (hnf : s.fail = false)
    (h0 : s.bytes[hdr.dataLocation]? = some 0xff)
    (h1 : s.bytes[hdr.dataLocation + 1]? = some 0x4f)
    (hlen : s.bytes.length < 2 ^ 32) :
    (scanForJpegBlockOffsets r c0).2.theNitfBlockSize
      = gaps hdr.dataLocation
          (termEnds (s.bytes.drop (hdr.dataLocation + 2)) (hdr.dataLocation + 2)) ∧
    (scanForJpegBlockOffsets r c0).2.theNitfBlockSize.sum
      = (termEnds (s.bytes.drop (hdr.dataLocation + 2)) (hdr.dataLocation + 2)).getLastD
          hdr.dataLocation - hdr.dataLocation ∧
    (∀ e ∈ termEnds (s.bytes.drop (hdr.dataLocation + 2)) (hdr.dataLocation + 2),
      hdr.dataLocation + 4 ≤ e ∧ s.bytes[e - 2]? = some 0xff ∧
      s.bytes[e - 1]? = some 0x93) := by
  have hl1 := getElem?_lt _ _ _ h1
  have hsz : (scanForJpegBlockOffsets r c0).2.theNitfBlockSize
      = gaps hdr.dataLocation
          (termEnds (s.bytes.drop (hdr.dataLocation + 2)) (hdr.dataLocation + 2)) := by
    rw [scan_of_soc r c0 hdr s hh hm hs hnf h0 h1]
    exact scanBytes_sizes_gaps _ _ 2 hdr.dataLocation rfl
      (by simp only [List.length_drop]; omega)
  refine ⟨hsz, ?_, ?_⟩
  · rw [hsz]
    exact (sum_gaps _ _ (termEnds_chain _ _ _ (by omega))).2
  · intro e he
    have := termEnds_valid s.bytes (hdr.dataLocation + 2) _ _ rfl (Nat.le_refl _) e he
    exact ⟨by omega, this.2⟩

/-- Witness for C14: one byte ahead of the codestream; the terminators end at
positions 8 and 15, the sizes are 7 and 7, and 7 + 7 = 15 - 1. -/
theorem sizes_count_bytes_between_terminators_witness :
    (scanForJpegBlockOffsets
        (sampleReader
          [9, 0xff, 0x4f, 0xff, 0x90, 0, 0xff, 0x93, 0, 0, 0xff, 0x90, 0, 0xff, 0x93, 0]
          0 1 2 1) 0).2.theNitfBlockSize
      = gaps 1
          (termEnds
            (([9, 0xff, 0x4f, 0xff, 0x90, 0, 0xff, 0x93, 0, 0, 0xff, 0x90, 0, 0xff, 0x93, 0]
              : List Byte).drop (1 + 2)) (1 + 2)) ∧
    (scanForJpegBlockOffsets
        (sampleReader
          [9, 0xff, 0x4f, 0xff, 0x90, 0, 0xff, 0x93, 0, 0, 0xff, 0x90, 0, 0xff, 0x93, 0]
          0 1 2 1) 0).2.theNitfBlockSize.sum
      = (termEnds
          (([9, 0xff, 0x4f, 0xff, 0x90, 0, 0xff, 0x93, 0, 0, 0xff, 0x90, 0, 0xff, 0x93, 0]
            : List Byte).drop (1 + 2)) (1 + 2)).getLastD 1 - 1 ∧
    (∀ e ∈ termEnds
          (([9, 0xff, 0x4f, 0xff, 0x90, 0, 0xff, 0x93, 0, 0, 0xff, 0x90, 0, 0xff, 0x93, 0]
            : List Byte).drop (1 + 2)) (1 + 2),
      1 + 4 ≤ e ∧
      ([9, 0xff, 0x4f, 0xff, 0x90, 0, 0xff, 0x93, 0, 0, 0xff, 0x90, 0, 0xff, 0x93, 0]
        : List Byte)[e - 2]? = some 0xff ∧
      ([9, 0xff, 0x4f, 0xff, 0x90, 0, 0xff, 0x93, 0, 0, 0xff, 0x90, 0, 0xff, 0x93, 0]
        : List Byte)[e - 1]? = some 0x93) :=
  sizes_count_bytes_between_terminators
    (sampleReader
      [9, 0xff, 0x4f, 0xff, 0x90, 0, 0xff, 0x93, 0, 0, 0xff, 0x90, 0, 0xff, 0x93, 0] 0 1 2 1)
    0 { dataLocation := 1, blocksPerRow := 2, blocksPerCol := 1 }
    { bytes := [9, 0xff, 0x4f, 0xff, 0x90, 0, 0xff, 0x93, 0, 0, 0xff, 0x90, 0, 0xff, 0x93, 0],
      pos := 0, eofbit := false, failbit := false, badbit := false, seekPastEnd := true }
    rfl rfl rfl rfl (by decide) (by decide) (by decide)

/-! ## Claims about dumpTiles -/

/-- C11, the code at two failing inputs, both entered with the get pointer at
position 0 on a good stream and a 1 x 1 grid.
First: the file `FF 4F 00 00 FF 90` ends right behind the first tile marker.
The SOT parse hits the end of the file (`eofbit` and `failbit`), the
`seekg(pos, ios_base::beg)` of the `for` loop clears `eofbit` and cannot seek
while `failbit` is set, so `eof()` is false at line 336, `clear()` is not
called, and the final `seekg(currentPos)` does nothing: the pointer stays at
position 6.
Second: a stream whose buffer refuses positions beyond its end holds one
tile-part header that declares the length 1000. The `seekg` of the `for` loop
fails and sets `failbit` only, with the same outcome: the pointer stays at
position 16. -/
theorem dumpTiles_cursor_not_restored :
    ((sampleReader [0xff, 0x4f, 0, 0, 0xff, 0x90] 0 0 1 1).theFileStr.map IStream.pos
        = some 0 ∧
     ((dumpTiles sotOnlyParsers (sampleReader [0xff, 0x4f, 0, 0, 0xff, 0x90] 0 0 1 1)
          0 0 0).bind Reader.theFileStr).map IStream.pos = some 6) ∧
    ((dumpTiles sotOnlyParsers
          { sampleReader [] 0 0 1 1 with
            theFileStr := some
              { bytes := [0xff, 0x4f, 0, 0, 0xff, 0x90, 0, 10, 0, 0, 0, 0, 3, 232, 0, 1, 7, 7],
                pos := 0, eofbit := false, failbit := false, badbit := false,
                seekPastEnd := false } }
          0 0 0).bind Reader.theFileStr).map IStream.pos = some 16 := by
  decide

/-- On a good stream `dumpTiles` runs `firstTileSearch` on the stream as it
is, and when the search finds a tile marker the `for` loop is `sotWalk`,
`BLOCKS` passes long, started on the stream the search leaves. -/
theorem dumpTiles_on_good_stream (P : RecordParsers) (r : Reader) (hdr : ImageHeader)
    (str : IStream) (c0 m0 m1 : Byte) (hh : r.hdr = some hdr) (hs : r.theFileStr = some str)
    (hg : str.good = true) :
    dumpTiles P r c0 m0 m1 =
      some { r with theFileStr := some (restoreCursor
        (if (firstTileSearch P str c0 m0 m1).2 then
            (findEoc
              (scanFuel (sotWalk P (toU32 (hdr.blocksPerRow * hdr.blocksPerCol))
                (firstTileSearch P str c0 m0 m1).1))
              (sotWalk P (toU32 (hdr.blocksPerRow * hdr.blocksPerCol))
                (firstTileSearch P str c0 m0 m1).1) c0).1
          else (firstTileSearch P str c0 m0 m1).1)
        (str.pos : Int)) } := by
  have hf : str.fail = false := by
    simp only [IStream.good, Bool.and_eq_true, Bool.not_eq_true'] at hg
    simp [IStream.fail, hg.1.2, hg.2]
  simp only [dumpTiles, hh, hs, IStream.tellgPos, IStream.sentry, hg, if_true, IStream.tellg, hf,
    Bool.false_eq_true, if_false]
  rfl

end OpjNitf
